import Mathlib

/-!
Verification of the experience-management layer of `tools.py`
(episode cache, eviction policy, window sampler, simulation driver,
lambda-return estimator).

The Python code is shallowly embedded: dictionaries become insertion-ordered
association lists, numpy scalars become exact values (`Val`: a rational or a
boolean), machine floats are modeled by exact rationals, and stateful code is
explicit state passing.  Fallible operations (Python `KeyError`,
`IndexError`, `NameError`, unbounded loops) return `Option`, with `none` for
a raised exception or exhausted fuel.
-/

/-- A scalar value stored in the episode cache: numpy numeric scalars are
modeled as exact rationals, numpy booleans as `Bool`. -/
inductive Val where
  | rat (q : ℚ)
  | bool (b : Bool)
deriving DecidableEq, Repr

/-- Embeds Python `0 * val`: the zero value of the same kind as `val`.
Used for the schema-drift backfill placeholder in `add_to_cache`. -/
def zeroMul : Val → Val
  | .rat _ => .rat 0
  | .bool _ => .bool false

/-- Embeds `convert` (src/tools.py:902): numpy dtype normalization to a fixed
precision (float→float32, signed int→int32, uint8 and bool preserved).  At the
level of the exact values modeled by `Val` the cast preserves the value, so
the embedding is the identity; the `NotImplementedError` branch for
unrecognized dtypes cannot arise for `Val`. -/
def convert (v : Val) : Val := v

abbrev FieldName := String

/-- One episode: an insertion-ordered mapping from field name to the list of
recorded values (a Python `dict` of `list`s, as built by `add_to_cache`). -/
abbrev Episode := List (FieldName × List Val)

/-- The episode cache: an insertion-ordered mapping from episode identifier to
episode (a Python `dict`).  Identifiers are modeled as naturals, matching the
requirement that they be ordered for the eviction scan. -/
abbrev Cache := List (Nat × Episode)

/-- One transition: the field mapping passed to `add_to_cache`. -/
abbrev Transition := List (FieldName × Val)

/-- Inserting one field value into an episode, embedding the per-key body of
the `else` branch of `add_to_cache` (src/tools.py:880-887): if the key is
present, append `convert val`; otherwise create the field with the
zero-valued backfill placeholder `convert (0 * val)` followed by
`convert val` (new dict keys appear at the end, in insertion order). -/
def addFieldVal (ep : Episode) (key : FieldName) (val : Val) : Episode :=
  match ep.lookup key with
  | some vs => ep.map (fun kv => if kv.1 = key then (kv.1, vs ++ [convert val]) else kv)
  | none => ep ++ [(key, [convert (zeroMul val), convert val])]

/-- Embeds `add_to_cache` (src/tools.py:873-887).  A fresh id seeds every
field of the transition with a singleton list; an existing id folds
`addFieldVal` over the transition's items in order. -/
def add_to_cache (cache : Cache) (id : Nat) (transition : Transition) : Cache :=
  match cache.lookup id with
  | none => cache ++ [(id, transition.map (fun kv => (kv.1, [convert kv.2])))]
  | some ep =>
      cache.map (fun ide =>
        if ide.1 = id then (ide.1, transition.foldl (fun e kv => addFieldVal e kv.1 kv.2) ep)
        else ide)

/-- A sequence of `add_to_cache` calls for one episode id. -/
def addAll (cache : Cache) (id : Nat) (ts : List Transition) : Cache :=
  ts.foldl (fun c t => add_to_cache c id t) cache

/-- `len(ep["reward"])`, with a missing field reading as length 0 (the Python
code would raise `KeyError`; theorems that depend on this field hypothesize
its presence). -/
def rewardLen (ep : Episode) : Nat := ((ep.lookup "reward").getD []).length

/-- Insert one keyed episode into a list sorted descending by key; helper for
the `reversed(sorted(cache.items(), key=lambda x: x[0]))` scan order of
`erase_over_episodes`. -/
def insertDescBy (x : Nat × Episode) : List (Nat × Episode) → List (Nat × Episode)
  | [] => [x]
  | y :: ys => if y.1 ≤ x.1 then x :: y :: ys else y :: insertDescBy x ys

/-- Sort the cache items descending by episode id (dict keys are distinct, so
`reversed(sorted(...))` is exactly a descending sort). -/
def sortDesc (l : List (Nat × Episode)) : List (Nat × Episode) :=
  l.foldr insertDescBy []

/-- The body of the eviction loop of `erase_over_episodes`
(src/tools.py:891-898), scanning the already-ordered items: an episode is
kept, and its `len(reward) - 1` transitions accumulated, when the budget is
falsy or the running total would stay within it; otherwise it is deleted.
Returns the retained items (in scan order; the claims only use membership)
together with the final `step_in_dataset`.  The accumulator is an integer,
as in Python, so an empty reward list contributes `-1`. -/
def eraseLoop (dataset_size : Nat) : List (Nat × Episode) → Int → List (Nat × Episode) × Int
  | [], acc => ([], acc)
  | (k, ep) :: rest, acc =>
      if dataset_size = 0 ∨ acc + ((rewardLen ep : Int) - 1) ≤ (dataset_size : Int) then
        let r := eraseLoop dataset_size rest (acc + ((rewardLen ep : Int) - 1))
        ((k, ep) :: r.1, r.2)
      else
        eraseLoop dataset_size rest acc

/-- Embeds `erase_over_episodes` (src/tools.py:889-899): scan episodes from
newest id to oldest, deleting those whose transition count no longer fits the
budget.  Python mutates the cache and returns `step_in_dataset`; the embedding
returns the retained episodes and that value.  `dataset_size = 0` models a
falsy budget (`None` or `0`). -/
def erase_over_episodes (cache : Cache) (dataset_size : Nat) : List (Nat × Episode) × Int :=
  eraseLoop dataset_size (sortDesc cache) 0

/-- Total transitions, `sum of (len(reward) - 1)`, over a list of episodes. -/
def sumTr (l : List (Nat × Episode)) : Int :=
  (l.map (fun e => ((rewardLen e.2 : Int) - 1))).sum

/-- Episode with an `n`-element reward field only (test fixture). -/
def epR (n : Nat) : Episode := [("reward", List.replicate n (Val.rat 0))]

example : rewardLen (epR 4) = 4 := by decide
example :
    (erase_over_episodes [(3, epR 4), (2, epR 5), (1, epR 3)] 5).1
      = [(3, epR 4), (1, epR 3)] := by decide
example : (erase_over_episodes [(3, epR 4), (2, epR 5), (1, epR 3)] 5).2 = 5 := by decide
example : (erase_over_episodes [(3, epR 4), (2, epR 5), (1, epR 3)] 0).2 = 9 := by decide

lemma eraseLoop_subset (ds : Nat) :
    ∀ (l : List (Nat × Episode)) (acc : Int), ∀ x ∈ (eraseLoop ds l acc).1, x ∈ l := by
  intro l
  induction l with
  | nil => intro acc x hx; simp [eraseLoop] at hx
  | cons h t ih =>
    obtain ⟨k, ep⟩ := h
    intro acc x hx
    simp only [eraseLoop] at hx
    by_cases hc : ds = 0 ∨ acc + ((rewardLen ep : Int) - 1) ≤ (ds : Int)
    · rw [if_pos hc] at hx
      rcases List.mem_cons.mp hx with hx | hx
      · exact hx ▸ List.mem_cons_self _ _
      · exact List.mem_cons_of_mem _ (ih _ x hx)
    · rw [if_neg hc] at hx
      exact List.mem_cons_of_mem _ (ih _ x hx)

lemma eraseLoop_snd (ds : Nat) :
    ∀ (l : List (Nat × Episode)) (acc : Int),
      (eraseLoop ds l acc).2 = acc + sumTr (eraseLoop ds l acc).1 := by
  intro l
  induction l with
  | nil => intro acc; simp [eraseLoop, sumTr]
  | cons h t ih =>
    obtain ⟨k, ep⟩ := h
    intro acc
    simp only [eraseLoop]
    by_cases hc : ds = 0 ∨ acc + ((rewardLen ep : Int) - 1) ≤ (ds : Int)
    · rw [if_pos hc]
      simp only [sumTr, List.map_cons, List.sum_cons]
      have := ih (acc + ((rewardLen ep : Int) - 1))
      simp only [sumTr] at this
      rw [this]; ring
    · rw [if_neg hc]; exact ih acc

lemma eraseLoop_le (ds : Nat) (hds : ds ≠ 0) :
    ∀ (l : List (Nat × Episode)) (acc : Int), acc ≤ (ds : Int) →
      (eraseLoop ds l acc).2 ≤ (ds : Int) := by
  intro l
  induction l with
  | nil => intro acc hacc; simpa [eraseLoop] using hacc
  | cons h t ih =>
    obtain ⟨k, ep⟩ := h
    intro acc hacc
    simp only [eraseLoop]
    by_cases hc : ds = 0 ∨ acc + ((rewardLen ep : Int) - 1) ≤ (ds : Int)
    · rw [if_pos hc]
      rcases hc with hc | hc
      · exact absurd hc hds
      · exact ih _ hc
    · rw [if_neg hc]; exact ih _ hacc

lemma eraseLoop_zero :
    ∀ (l : List (Nat × Episode)) (acc : Int), eraseLoop 0 l acc = (l, acc + sumTr l) := by
  intro l
  induction l with
  | nil => intro acc; simp [eraseLoop, sumTr]
  | cons h t ih =>
    obtain ⟨k, ep⟩ := h
    intro acc
    simp only [eraseLoop]
    split
    · rw [ih]
      simp only [sumTr, List.map_cons, List.sum_cons]
      rw [add_assoc]
    · next hc => exact absurd (Or.inl trivial) hc

lemma insertDescBy_perm (x : Nat × Episode) :
    ∀ l : List (Nat × Episode), (insertDescBy x l).Perm (x :: l) := by
  intro l
  induction l with
  | nil => simp [insertDescBy]
  | cons y ys ih =>
    simp only [insertDescBy]
    by_cases hc : y.1 ≤ x.1
    · rw [if_pos hc]
    · rw [if_neg hc]
      exact (List.Perm.cons y ih).trans (List.Perm.swap x y ys)

lemma sortDesc_perm (l : List (Nat × Episode)) : (sortDesc l).Perm l := by
  induction l with
  | nil => simp [sortDesc]
  | cons x xs ih =>
    have : sortDesc (x :: xs) = insertDescBy x (sortDesc xs) := rfl
    rw [this]
    exact (insertDescBy_perm x (sortDesc xs)).trans (List.Perm.cons x ih)

lemma sortDesc_eq_of_sorted :
    ∀ l : List (Nat × Episode), l.Pairwise (fun a b => b.1 < a.1) → sortDesc l = l := by
  intro l
  induction l with
  | nil => intro _; rfl
  | cons x xs ih =>
    intro hp
    have hx : ∀ y ∈ xs, y.1 < x.1 := (List.pairwise_cons.mp hp).1
    have htail := (List.pairwise_cons.mp hp).2
    have : sortDesc (x :: xs) = insertDescBy x (sortDesc xs) := rfl
    rw [this, ih htail]
    cases xs with
    | nil => rfl
    | cons y ys =>
      have : y.1 ≤ x.1 := le_of_lt (hx y (List.mem_cons_self y ys))
      simp [insertDescBy, this]

lemma eraseLoop_mem_iff (ds : Nat) (hds : ds ≠ 0) :
    ∀ (l : List (Nat × Episode)) (acc : Int), (l.map Prod.fst).Nodup →
      ∀ (i : Nat) (hi : i < l.length),
        (l.get ⟨i, hi⟩ ∈ (eraseLoop ds l acc).1
          ↔ (eraseLoop ds (l.take i) acc).2
              + ((rewardLen (l.get ⟨i, hi⟩).2 : Int) - 1) ≤ (ds : Int)) := by
  intro l
  induction l with
  | nil => intro acc _ i hi; exact absurd hi (by simp)
  | cons h t ih =>
    obtain ⟨k, ep⟩ := h
    intro acc hnd i hi
    have hknotin : k ∉ t.map Prod.fst := (List.nodup_cons.mp (by simpa using hnd)).1
    have hndt : (t.map Prod.fst).Nodup := (List.nodup_cons.mp (by simpa using hnd)).2
    cases i with
    | zero =>
      simp only [List.get, List.take, eraseLoop]
      by_cases hc : ds = 0 ∨ acc + ((rewardLen ep : Int) - 1) ≤ (ds : Int)
      · rw [if_pos hc]
        constructor
        · intro _
          rcases hc with hc | hc
          · exact absurd hc hds
          · exact hc
        · intro _; exact List.mem_cons_self _ _
      · rw [if_neg hc]
        constructor
        · intro hmem
          exfalso
          exact hknotin (List.mem_map_of_mem Prod.fst (eraseLoop_subset ds t acc _ hmem))
        · intro hle
          exact absurd (Or.inr hle) hc
    | succ j =>
      have hj : j < t.length := Nat.lt_of_succ_lt_succ hi
      have hxmem : t.get ⟨j, hj⟩ ∈ t := List.get_mem t j hj
      have hxne : (t.get ⟨j, hj⟩) ≠ (k, ep) := by
        intro hEq
        exact hknotin (List.mem_map_of_mem Prod.fst (hEq ▸ hxmem))
      have hget : ((k, ep) :: t).get ⟨j + 1, hi⟩ = t.get ⟨j, hj⟩ := rfl
      rw [hget]
      simp only [List.take, eraseLoop]
      by_cases hc : ds = 0 ∨ acc + ((rewardLen ep : Int) - 1) ≤ (ds : Int)
      · rw [if_pos hc, if_pos hc]
        have hmc : (t.get ⟨j, hj⟩
              ∈ (k, ep) :: (eraseLoop ds t (acc + ((rewardLen ep : Int) - 1))).1)
            ↔ t.get ⟨j, hj⟩ ∈ (eraseLoop ds t (acc + ((rewardLen ep : Int) - 1))).1 := by
          rw [List.mem_cons]
          exact or_iff_right hxne
        rw [hmc]
        exact ih _ hndt j hj
      · rw [if_neg hc, if_neg hc]
        exact ih _ hndt j hj

/-- **C1, counterexample.**  With `step_budget = 5` and episodes of ids
3/2/1 holding 3/4/2 transitions, `erase_over_episodes` keeps id 3, deletes
id 2 (3+4 > 5), and then keeps the *older* id 1 again (3+2 ≤ 5): the eviction
of an episode does not imply the eviction of every older episode. -/
theorem erase_over_episodes_suffix_cex :
    (2, epR 5) ∉ (erase_over_episodes [(3, epR 4), (2, epR 5), (1, epR 3)] 5).1
    ∧ (1, epR 3) ∈ (erase_over_episodes [(3, epR 4), (2, epR 5), (1, epR 3)] 5).1
    ∧ (1 : Nat) < 2 := by decide

/-- **C1, amended.**  `erase_over_episodes` iterates episodes from newest
identifier to oldest and deletes exactly those episodes whose transition
count would push the running total of the already-retained (newer) episodes
over the budget; each older episode is tested independently against the
remaining budget, so an older episode can be retained after a newer one was
evicted.  Formally: the episode at position `i` of the newest-first order is
retained iff the total accumulated over positions `< i` still accommodates
its own `len(reward) - 1`. -/
theorem erase_over_episodes_greedy (cache : Cache) (ds : Nat) (hds : ds ≠ 0)
    (hsort : cache.Pairwise (fun a b => b.1 < a.1)) (i : Nat) (hi : i < cache.length) :
    cache.get ⟨i, hi⟩ ∈ (erase_over_episodes cache ds).1
      ↔ (eraseLoop ds (cache.take i) 0).2
          + ((rewardLen (cache.get ⟨i, hi⟩).2 : Int) - 1) ≤ (ds : Int) := by
  have hnd : (cache.map Prod.fst).Nodup :=
    List.Pairwise.map Prod.fst (fun a b hab => ne_of_gt hab) hsort
  unfold erase_over_episodes
  rw [sortDesc_eq_of_sorted cache hsort]
  exact eraseLoop_mem_iff ds hds cache 0 hnd i hi

/-- Witness for `erase_over_episodes_greedy` at the concrete cache of the
counterexample: position 2 (id 1) is retained because 3 + 2 ≤ 5. -/
theorem erase_over_episodes_greedy_witness :
    (1, epR 3) ∈ (erase_over_episodes [(3, epR 4), (2, epR 5), (1, epR 3)] 5).1 :=
  (erase_over_episodes_greedy [(3, epR 4), (2, epR 5), (1, epR 3)] 5 (by decide)
    (by decide) 2 (by decide)).mpr (by decide)

/-- **C5.**  `erase_over_episodes`: the returned `step_in_dataset` always
equals the total `len(reward) - 1` over the retained episodes; when the
budget is set (nonzero) that total never exceeds the budget; when the budget
is falsy no episode is deleted and the returned value is the total transition
count over all episodes.  (The `KeyError` Python would raise on an episode
with no `reward` field is excluded by hypothesis.) -/
theorem erase_over_episodes_total (cache : Cache) (ds : Nat)
    (hrew : ∀ e ∈ cache, (e.2.lookup "reward").isSome) :
    (erase_over_episodes cache ds).2 = sumTr (erase_over_episodes cache ds).1
    ∧ (ds ≠ 0 → (erase_over_episodes cache ds).2 ≤ (ds : Int))
    ∧ (ds = 0 → (erase_over_episodes cache ds).1.Perm cache
        ∧ (erase_over_episodes cache ds).2 = sumTr cache) := by
  refine ⟨?_, ?_, ?_⟩
  · have h := eraseLoop_snd ds (sortDesc cache) 0
    simpa [erase_over_episodes] using h
  · intro hds
    exact eraseLoop_le ds hds (sortDesc cache) 0 (Int.natCast_nonneg ds)
  · intro hds
    subst hds
    constructor
    · rw [erase_over_episodes, eraseLoop_zero]
      exact sortDesc_perm cache
    · rw [erase_over_episodes, eraseLoop_zero]
      have hsum : sumTr (sortDesc cache) = sumTr cache :=
        List.Perm.sum_eq ((sortDesc_perm cache).map _)
      simpa using hsum

/-- Witness for `erase_over_episodes_total` at a concrete one-episode cache. -/
theorem erase_over_episodes_total_witness :
    (erase_over_episodes [(1, epR 3)] 2).2
      = sumTr (erase_over_episodes [(1, epR 3)] 2).1 :=
  (erase_over_episodes_total [(1, epR 3)] 2 (by decide)).1

/-- Pointwise ternary zip (numpy/torch elementwise arithmetic over three
equally indexed sequences), truncating at the shortest list. -/
def zipWith3q (f : ℚ → ℚ → ℚ → ℚ) : List ℚ → List ℚ → List ℚ → List ℚ
  | a :: as, b :: bs, c :: cs => f a b c :: zipWith3q f as bs cs
  | _, _, _ => []

/-- The loop of `static_scan_for_lambda_return` (src/tools.py:1292-1300):
process the (already reversed) stream of `(inputs, pcont)` pairs, threading
the accumulator `last` and collecting each new value in processing order. -/
def scanGo (fn : ℚ → ℚ → ℚ → ℚ) : List (ℚ × ℚ) → ℚ → List ℚ
  | [], _ => []
  | ip :: rest, last => fn last ip.1 ip.2 :: scanGo fn rest (fn last ip.1 ip.2)

/-- Embeds `static_scan_for_lambda_return` (src/tools.py:1287-1304) at the
value level along the time axis: iterate the indices in reverse order,
thread the accumulator through `fn`, collect the outputs, and flip them back
into forward time order (the `torch.cat`/`reshape`/`flip`/`unbind` tensor
packing is elided; elements are the per-step scalars). -/
def static_scan_for_lambda_return (fn : ℚ → ℚ → ℚ → ℚ)
    (inputs pcont : List ℚ) (start : ℚ) : List ℚ :=
  (scanGo fn ((inputs.zip pcont).reverse) start).reverse

/-- Embeds `lambda_return` (src/tools.py:1307-1333) with the time axis at
position 0 (the `permute` for `axis ≠ 0` only moves the time axis there) and
per-step scalar elements: `next_values` is `value` shifted left with
`bootstrap` appended, the scan inputs are
`reward + pcont * next_values * (1 - lambda)`, and the reverse scan folds
`cur0 + cur1 * lambda * agg` from the last step backwards starting at
`bootstrap`. -/
def lambda_return (reward value pcont : List ℚ) (bootstrap lambda_ : ℚ) : List ℚ :=
  let next_values := value.drop 1 ++ [bootstrap]
  let inputs := zipWith3q (fun r p nv => r + p * nv * (1 - lambda_)) reward pcont next_values
  static_scan_for_lambda_return
    (fun agg cur0 cur1 => cur0 + cur1 * lambda_ * agg) inputs pcont bootstrap

/-- The discounted Monte-Carlo return, written from the claim's words as the
direct forward recursion `R[t] = reward[t] + discount[t] * R[t+1]` with `R`
after the last step equal to `bootstrap` (reference definition for C4). -/
def mc_return (reward discount : List ℚ) (bootstrap : ℚ) : List ℚ :=
  match reward, discount with
  | r :: rs, d :: ds =>
      (r + d * ((mc_return rs ds bootstrap).headD bootstrap)) :: mc_return rs ds bootstrap
  | _, _ => []

/-- The one-step target `reward[t] + discount[t] * next_value[t]`, with
`next_value` the value sequence shifted by one step and `bootstrap` appended
(reference definition for C4). -/
def one_step_target (reward value pcont : List ℚ) (bootstrap : ℚ) : List ℚ :=
  zipWith3q (fun r p nv => r + p * nv) reward pcont (value.drop 1 ++ [bootstrap])

lemma scanGo_snoc (fn : ℚ → ℚ → ℚ → ℚ) (x : ℚ × ℚ) :
    ∀ (l : List (ℚ × ℚ)) (start : ℚ),
      scanGo fn (l ++ [x]) start
        = scanGo fn l start ++ [fn ((scanGo fn l start).getLastD start) x.1 x.2] := by
  intro l
  induction l with
  | nil => intro start; simp [scanGo]
  | cons ip rest ih =>
    intro start
    simp only [List.cons_append, scanGo, List.append_eq, ih, List.getLastD_cons]

lemma headD_reverse (l : List ℚ) (d : ℚ) : l.reverse.headD d = l.getLastD d := by
  rw [List.headD_eq_head?, List.head?_reverse, List.getLastD_eq_getLast?]

lemma static_scan_cons (fn : ℚ → ℚ → ℚ → ℚ) (i p : ℚ) (is ps : List ℚ) (start : ℚ) :
    static_scan_for_lambda_return fn (i :: is) (p :: ps) start
      = fn ((static_scan_for_lambda_return fn is ps start).headD start) i p
          :: static_scan_for_lambda_return fn is ps start := by
  unfold static_scan_for_lambda_return
  rw [List.zip_cons_cons, List.reverse_cons, scanGo_snoc, List.reverse_append]
  rw [headD_reverse]
  simp

lemma zipWith3q_congr (f g : ℚ → ℚ → ℚ → ℚ) (h : ∀ a b c, f a b c = g a b c) :
    ∀ (as bs cs : List ℚ), zipWith3q f as bs cs = zipWith3q g as bs cs := by
  intro as
  induction as with
  | nil => intro bs cs; cases bs <;> cases cs <;> rfl
  | cons a as ih =>
    intro bs cs
    cases bs with
    | nil => rfl
    | cons b bs =>
      cases cs with
      | nil => rfl
      | cons c cs => simp only [zipWith3q, h, ih]

lemma static_scan_zero :
    ∀ (inputs pcont : List ℚ) (start : ℚ), inputs.length = pcont.length →
      static_scan_for_lambda_return (fun agg cur0 cur1 => cur0 + cur1 * 0 * agg)
        inputs pcont start = inputs := by
  intro inputs
  induction inputs with
  | nil =>
    intro pcont start _
    simp [static_scan_for_lambda_return, scanGo]
  | cons i is ih =>
    intro pcont start hlen
    cases pcont with
    | nil => exact absurd hlen (by simp)
    | cons p ps =>
      rw [static_scan_cons, ih ps start (by simpa using hlen)]
      ring_nf

lemma zipWith3q_length (f : ℚ → ℚ → ℚ → ℚ) :
    ∀ as bs cs : List ℚ,
      (zipWith3q f as bs cs).length = min as.length (min bs.length cs.length) := by
  intro as
  induction as with
  | nil => intro bs cs; cases bs <;> cases cs <;> simp [zipWith3q]
  | cons a as ih =>
    intro bs cs
    cases bs with
    | nil => simp [zipWith3q]
    | cons b bs =>
      cases cs with
      | nil => simp [zipWith3q]
      | cons c cs =>
        simp only [zipWith3q, List.length_cons, ih]
        omega

lemma lambda_return_one (reward : List ℚ) :
    ∀ (value pcont : List ℚ) (b : ℚ), reward.length = value.length →
      reward.length = pcont.length →
      lambda_return reward value pcont b 1 = mc_return reward pcont b := by
  induction reward with
  | nil =>
    intro value pcont b h1 h2
    cases value with
    | cons v vs => simp at h1
    | nil =>
      cases pcont with
      | cons p ps => simp at h2
      | nil => rfl
  | cons r rs ih =>
    intro value pcont b h1 h2
    cases value with
    | nil => simp at h1
    | cons v vs =>
      cases pcont with
      | nil => simp at h2
      | cons p ps =>
        cases vs with
        | nil =>
          cases rs with
          | cons r2 rs2 => simp at h1
          | nil =>
            cases ps with
            | cons p2 ps2 => simp at h2
            | nil =>
              simp only [lambda_return, List.drop_succ_cons, List.drop_nil,
                List.nil_append, zipWith3q]
              rw [static_scan_cons]
              simp [static_scan_for_lambda_return, scanGo, mc_return]
        | cons v1 vs' =>
          have h1' : rs.length = (v1 :: vs').length := by simpa using h1
          have h2' : rs.length = ps.length := by simpa using h2
          have hS := ih (v1 :: vs') ps b h1' h2'
          simp only [lambda_return, List.drop_succ_cons, List.drop_zero,
            List.append_eq] at hS ⊢
          simp only [List.cons_append, List.append_eq, zipWith3q]
          rw [static_scan_cons, hS]
          simp only [mc_return]
          congr 1
          ring

lemma lambda_return_zero (reward value pcont : List ℚ) (b : ℚ)
    (h1 : reward.length = value.length) (h2 : reward.length = pcont.length) :
    lambda_return reward value pcont b 0 = one_step_target reward value pcont b := by
  simp only [lambda_return, one_step_target]
  rw [zipWith3q_congr (fun r p nv => r + p * nv * (1 - 0)) (fun r p nv => r + p * nv)
    (by intro a b c; ring) reward pcont (value.drop 1 ++ [b])]
  refine static_scan_zero _ pcont b ?_
  rw [zipWith3q_length]
  simp only [List.length_append, List.length_drop, List.length_singleton]
  omega

/-- **C4.**  `lambda_return` at `lambda = 1` equals the discounted
Monte-Carlo return (forward recursion `R[t] = reward[t] + discount[t] *
R[t+1]`, `R` past the end = `bootstrap`), and at `lambda = 0` it equals the
one-step target `reward[t] + discount[t] * next_value[t]` exactly, for
equal-shaped reward/value/discount sequences. -/
theorem lambda_return_limits (reward value pcont : List ℚ) (b : ℚ)
    (h1 : reward.length = value.length) (h2 : reward.length = pcont.length) :
    lambda_return reward value pcont b 1 = mc_return reward pcont b
    ∧ lambda_return reward value pcont b 0 = one_step_target reward value pcont b :=
  ⟨lambda_return_one reward value pcont b h1 h2,
   lambda_return_zero reward value pcont b h1 h2⟩

/-- Witness for `lambda_return_limits` on a concrete fixture. -/
theorem lambda_return_limits_witness :
    lambda_return [1, 2] [3, 4] [1, 1/2] 5 1 = mc_return [1, 2] [1, 1/2] 5
    ∧ lambda_return [1, 2] [3, 4] [1, 1/2] 5 0 = one_step_target [1, 2] [3, 4] [1, 1/2] 5 :=
  lambda_return_limits [1, 2] [3, 4] [1, 1/2] 5 (by decide) (by decide)

/-- Embeds the shape assertion of `lambda_return` (src/tools.py:1311):
`assert len(reward.shape) == len(value.shape)` compares only the *number of
dimensions* of the two declared shapes (shapes are lists of dimension
sizes). -/
def lambda_return_shape_assert (rewardShape valueShape : List Nat) : Bool :=
  rewardShape.length == valueShape.length

/-- **C10, counterexample.**  Shapes `[3,4]` and `[3,5]` mismatch in a
dimension, yet the assertion passes, because it compares only the ranks. -/
theorem lambda_return_shape_assert_cex :
    lambda_return_shape_assert [3, 4] [3, 5] = true ∧ [3, 4] ≠ [3, 5] := by decide

/-- **C10, amended.**  The assertion of `lambda_return` fails exactly when the
number of dimensions of the reward and value shapes differ; in particular it
never fails when the shapes agree exactly. -/
theorem lambda_return_shape_assert_iff (rewardShape valueShape : List Nat) :
    (lambda_return_shape_assert rewardShape valueShape = true
      ↔ rewardShape.length = valueShape.length)
    ∧ (rewardShape = valueShape → lambda_return_shape_assert rewardShape valueShape = true) := by
  constructor
  · simp [lambda_return_shape_assert]
  · intro h
    simp [lambda_return_shape_assert, h]

/-- Witness for `lambda_return_shape_assert_iff` at equal concrete shapes. -/
theorem lambda_return_shape_assert_iff_witness :
    lambda_return_shape_assert [3, 4] [3, 4] = true :=
  (lambda_return_shape_assert_iff [3, 4] [3, 4]).2 rfl

section LookupLemmas

variable {α β γ : Type} [BEq α] [LawfulBEq α]

lemma lookup_cons_self (k : α) (v : β) (t : List (α × β)) :
    ((k, v) :: t).lookup k = some v := by
  simp [List.lookup]

lemma lookup_cons_ne (k k' : α) (v : β) (t : List (α × β)) (h : k ≠ k') :
    ((k', v) :: t).lookup k = t.lookup k := by
  simp only [List.lookup]
  rw [show (k == k') = false from beq_eq_false_iff_ne.mpr h]

lemma lookup_none_iff (l : List (α × β)) (k : α) :
    l.lookup k = none ↔ k ∉ l.map Prod.fst := by
  induction l with
  | nil => simp [List.lookup]
  | cons hd t ih =>
    obtain ⟨k', v⟩ := hd
    by_cases hk : k = k'
    · subst hk
      rw [lookup_cons_self]
      simp
    · rw [lookup_cons_ne k k' v t hk, ih]
      simp [hk]

lemma lookup_isSome_iff (l : List (α × β)) (k : α) :
    (l.lookup k).isSome ↔ k ∈ l.map Prod.fst := by
  have h1 : ¬(l.lookup k).isSome ↔ k ∉ l.map Prod.fst := by
    rw [Option.not_isSome_iff_eq_none]
    exact lookup_none_iff l k
  exact not_iff_not.mp h1

lemma lookup_append_none (l l' : List (α × β)) (k : α) (h : l.lookup k = none) :
    (l ++ l').lookup k = l'.lookup k := by
  induction l with
  | nil => rfl
  | cons hd t ih =>
    obtain ⟨k', v⟩ := hd
    by_cases hk : k = k'
    · subst hk; rw [lookup_cons_self] at h; exact absurd h (by simp)
    · rw [lookup_cons_ne k k' v t hk] at h
      rw [List.cons_append, lookup_cons_ne k k' v (t ++ l') hk]
      exact ih h

lemma lookup_append_some (l l' : List (α × β)) (k : α) (v : β) (h : l.lookup k = some v) :
    (l ++ l').lookup k = some v := by
  induction l with
  | nil => exact absurd h (by simp [List.lookup])
  | cons hd t ih =>
    obtain ⟨k', v'⟩ := hd
    by_cases hk : k = k'
    · subst hk
      rw [lookup_cons_self] at h
      rw [List.cons_append, lookup_cons_self]
      exact h
    · rw [lookup_cons_ne k k' v' t hk] at h
      rw [List.cons_append, lookup_cons_ne k k' v' (t ++ l') hk]
      exact ih h

lemma lookup_map_value (g : β → γ) (l : List (α × β)) (k : α) :
    (l.map (fun kv => (kv.1, g kv.2))).lookup k = (l.lookup k).map g := by
  induction l with
  | nil => rfl
  | cons hd t ih =>
    obtain ⟨k', v⟩ := hd
    have hmap : ((k', v) :: t).map (fun kv => (kv.1, g kv.2))
        = (k', g v) :: t.map (fun kv => (kv.1, g kv.2)) := rfl
    rw [hmap]
    by_cases hk : k = k'
    · subst hk
      rw [lookup_cons_self, lookup_cons_self]
      rfl
    · rw [lookup_cons_ne k k' (g v) _ hk, lookup_cons_ne k k' v t hk, ih]

variable [DecidableEq α]

lemma lookup_map_ite_self (l : List (α × β)) (key : α) (w : β)
    (h : (l.lookup key).isSome) :
    (l.map (fun kv => if kv.1 = key then (kv.1, w) else kv)).lookup key = some w := by
  induction l with
  | nil => simp [List.lookup] at h
  | cons hd t ih =>
    obtain ⟨k', v⟩ := hd
    have hmap : ((k', v) :: t).map (fun kv => if kv.1 = key then (kv.1, w) else kv)
        = (if k' = key then (k', w) else (k', v))
            :: t.map (fun kv => if kv.1 = key then (kv.1, w) else kv) := rfl
    rw [hmap]
    by_cases hk : k' = key
    · subst hk
      rw [if_pos rfl, lookup_cons_self]
    · rw [if_neg hk]
      have hne : key ≠ k' := fun hkk => hk hkk.symm
      rw [lookup_cons_ne key k' v _ hne]
      rw [lookup_cons_ne key k' v t hne] at h
      exact ih h

lemma lookup_map_ite_ne (l : List (α × β)) (key : α) (w : β) (k : α) (hk : k ≠ key) :
    (l.map (fun kv => if kv.1 = key then (kv.1, w) else kv)).lookup k = l.lookup k := by
  induction l with
  | nil => rfl
  | cons hd t ih =>
    obtain ⟨k', v⟩ := hd
    have hmap : ((k', v) :: t).map (fun kv => if kv.1 = key then (kv.1, w) else kv)
        = (if k' = key then (k', w) else (k', v))
            :: t.map (fun kv => if kv.1 = key then (kv.1, w) else kv) := rfl
    rw [hmap]
    by_cases hkey : k' = key
    · subst hkey
      rw [if_pos rfl]
      rw [lookup_cons_ne k k' w _ hk, lookup_cons_ne k k' v t hk]
      exact ih
    · rw [if_neg hkey]
      by_cases hkk : k = k'
      · subst hkk
        rw [lookup_cons_self, lookup_cons_self]
      · rw [lookup_cons_ne k k' v _ hkk, lookup_cons_ne k k' v t hkk]
        exact ih

end LookupLemmas

lemma addFieldVal_lookup_self (ep : Episode) (key : FieldName) (val : Val) :
    (addFieldVal ep key val).lookup key
      = some (match ep.lookup key with
              | some vs => vs ++ [convert val]
              | none => [convert (zeroMul val), convert val]) := by
  cases h : ep.lookup key with
  | some vs =>
    simp only [addFieldVal, h]
    exact lookup_map_ite_self ep key _ (by simp [h])
  | none =>
    simp only [addFieldVal, h]
    rw [lookup_append_none ep _ key h, lookup_cons_self]

lemma addFieldVal_lookup_ne (ep : Episode) (key : FieldName) (val : Val) (f : FieldName)
    (hf : f ≠ key) :
    (addFieldVal ep key val).lookup f = ep.lookup f := by
  cases h : ep.lookup key with
  | some vs =>
    simp only [addFieldVal, h]
    exact lookup_map_ite_ne ep key _ f hf
  | none =>
    simp only [addFieldVal, h]
    cases hl : ep.lookup f with
    | some vs => exact lookup_append_some ep _ f vs hl
    | none =>
      rw [lookup_append_none ep _ f hl, lookup_cons_ne f key _ [] hf]
      rfl

/-- The per-transition fold of `add_to_cache`'s existing-episode branch
(src/tools.py:880-887): apply `addFieldVal` to each item of the transition in
order. -/
def epStep (ep : Episode) (t : Transition) : Episode :=
  t.foldl (fun e kv => addFieldVal e kv.1 kv.2) ep

lemma epStep_lookup :
    ∀ (t : Transition) (ep : Episode), (t.map Prod.fst).Nodup → ∀ f,
      (epStep ep t).lookup f
        = match ep.lookup f, t.lookup f with
          | some vs, some v => some (vs ++ [convert v])
          | some vs, none => some vs
          | none, some v => some [convert (zeroMul v), convert v]
          | none, none => none := by
  intro t
  induction t with
  | nil =>
    intro ep _ f
    cases h : ep.lookup f <;> simp [epStep, List.lookup, h]
  | cons kv t' ih =>
    obtain ⟨k, v⟩ := kv
    intro ep hnd f
    have hk' : k ∉ t'.map Prod.fst := (List.nodup_cons.mp (by simpa using hnd)).1
    have hnd' : (t'.map Prod.fst).Nodup := (List.nodup_cons.mp (by simpa using hnd)).2
    have hstep : epStep ep ((k, v) :: t') = epStep (addFieldVal ep k v) t' := rfl
    rw [hstep, ih (addFieldVal ep k v) hnd' f]
    by_cases hf : f = k
    · subst hf
      have ht' : t'.lookup f = none := (lookup_none_iff t' f).mpr hk'
      rw [addFieldVal_lookup_self, ht', lookup_cons_self]
      cases hep : ep.lookup f <;> simp
    · rw [addFieldVal_lookup_ne ep k v f hf, lookup_cons_ne f k v t' hf]

/-- Folding a sequence of transitions into an existing episode. -/
def epFold (ep : Episode) (eps : List Transition) : Episode :=
  eps.foldl epStep ep

lemma epFold_inv (ks : List FieldName) (hksnd : ks.Nodup) :
    ∀ (eps : List Transition) (ep : Episode) (n : Nat),
      (∀ t ∈ eps, t.map Prod.fst = ks) →
      (∀ f, (ep.lookup f).isSome ↔ f ∈ ks) →
      (∀ f vs, ep.lookup f = some vs → vs.length = n) →
      (∀ f, ((epFold ep eps).lookup f).isSome ↔ f ∈ ks)
      ∧ (∀ f vs, (epFold ep eps).lookup f = some vs → vs.length = n + eps.length) := by
  intro eps
  induction eps with
  | nil =>
    intro ep n _ hdom hlen
    refine ⟨hdom, ?_⟩
    intro f vs h
    simpa using hlen f vs h
  | cons t eps' ih =>
    intro ep n hks hdom hlen
    have hkeys : t.map Prod.fst = ks := hks t (List.mem_cons_self t eps')
    have hnd : (t.map Prod.fst).Nodup := by rw [hkeys]; exact hksnd
    have hdom1 : ∀ f, ((epStep ep t).lookup f).isSome ↔ f ∈ ks := by
      intro f
      rw [epStep_lookup t ep hnd f]
      by_cases hf : f ∈ ks
      · have ht : (t.lookup f).isSome := by rw [lookup_isSome_iff, hkeys]; exact hf
        obtain ⟨v, hv⟩ := Option.isSome_iff_exists.mp ht
        rw [hv]
        cases hep : ep.lookup f <;> simp [hf]
      · have ht : t.lookup f = none := by rw [lookup_none_iff, hkeys]; exact hf
        have hep : ep.lookup f = none := by
          rw [← Option.not_isSome_iff_eq_none]
          intro hs
          exact hf ((hdom f).mp hs)
        rw [ht, hep]
        simp [hf]
    have hlen1 : ∀ f vs, (epStep ep t).lookup f = some vs → vs.length = n + 1 := by
      intro f vs hvs
      rw [epStep_lookup t ep hnd f] at hvs
      cases hep : ep.lookup f with
      | some vs0 =>
        have hfks : f ∈ ks := (hdom f).mp (by simp [hep])
        have ht : (t.lookup f).isSome := by rw [lookup_isSome_iff, hkeys]; exact hfks
        obtain ⟨v, hv⟩ := Option.isSome_iff_exists.mp ht
        rw [hep, hv] at hvs
        simp only [Option.some.injEq] at hvs
        rw [← hvs]
        have := hlen f vs0 hep
        simp [this]
      | none =>
        have hfks : f ∉ ks := by
          intro hf
          have := (hdom f).mpr hf
          simp [hep] at this
        have ht : t.lookup f = none := by rw [lookup_none_iff, hkeys]; exact hfks
        rw [hep, ht] at hvs
        simp at hvs
    have hrec := ih (epStep ep t) (n + 1)
      (fun t' ht' => hks t' (List.mem_cons_of_mem t ht')) hdom1 hlen1
    refine ⟨hrec.1, ?_⟩
    intro f vs h
    have := hrec.2 f vs h
    simp only [List.length_cons]
    omega

lemma add_to_cache_lookup_none (cache : Cache) (id : Nat) (t : Transition)
    (hc : cache.lookup id = none) :
    (add_to_cache cache id t).lookup id
      = some (t.map (fun kv => (kv.1, [convert kv.2]))) := by
  simp only [add_to_cache, hc]
  rw [lookup_append_none cache _ id hc, lookup_cons_self]

lemma add_to_cache_lookup_some (cache : Cache) (id : Nat) (t : Transition) (ep : Episode)
    (hc : cache.lookup id = some ep) :
    (add_to_cache cache id t).lookup id = some (epStep ep t) := by
  simp only [add_to_cache, hc]
  exact lookup_map_ite_self cache id _ (by simp [hc])

lemma addAll_lookup (id : Nat) :
    ∀ (eps : List Transition) (cache : Cache) (ep : Episode),
      cache.lookup id = some ep →
      (addAll cache id eps).lookup id = some (epFold ep eps) := by
  intro eps
  induction eps with
  | nil => intro cache ep hc; simpa [addAll, epFold] using hc
  | cons t eps' ih =>
    intro cache ep hc
    have h1 := add_to_cache_lookup_some cache id t ep hc
    have h2 := ih (add_to_cache cache id t) (epStep ep t) h1
    simpa [addAll, epFold] using h2

/-- **C2, counterexample.**  Three inserts for one id: `reward` alone, then
`reward` alone, then `reward` together with a first-ever `action`.  The
backfill adds only one placeholder, so `action` ends with 2 entries while
`reward` has 3 — field lengths do not all equal the number of inserts. -/
theorem add_to_cache_equal_lengths_cex :
    ((addAll [] 0 [[("reward", Val.rat 0)], [("reward", Val.rat 1)],
        [("reward", Val.rat 2), ("action", Val.rat 5)]]).lookup 0).map
      (fun ep => ep.map (fun kv => (kv.1, kv.2.length)))
      = some [("reward", 3), ("action", 2)] ∧ (3 : Nat) ≠ 2 := by decide

/-- **C2, amended.**  For a sequence of `add_to_cache` calls on one fresh id
in which every call after the first carries the same field set `ks` and the
first call's fields all belong to `ks`: after each call every field's stored
list has length equal to the number of inserts so far, and a field absent
from the first transition but present in the second is created at the second
insert as the zero placeholder `convert (0 * v)` followed by `convert v`.
(Without this discipline the invariant fails: a field first appearing at the
third or later insert receives only one placeholder, see the
counterexample.) -/
theorem add_to_cache_equal_lengths
    (cache : Cache) (id : Nat) (t1 t2 : Transition) (rest : List Transition)
    (ks : List FieldName)
    (hc : cache.lookup id = none)
    (hksnd : ks.Nodup)
    (h2k : t2.map Prod.fst = ks)
    (hrest : ∀ t ∈ rest, t.map Prod.fst = ks)
    (ht1 : ∀ f ∈ t1.map Prod.fst, f ∈ ks) :
    (∀ n, 1 ≤ n → n ≤ (t1 :: t2 :: rest).length →
      ∃ ep, (addAll cache id ((t1 :: t2 :: rest).take n)).lookup id = some ep
        ∧ ∀ f vs, ep.lookup f = some vs → vs.length = n)
    ∧ (∀ f v, t1.lookup f = none → t2.lookup f = some v →
        ∃ ep, (addAll cache id [t1, t2]).lookup id = some ep
          ∧ ep.lookup f = some [convert (zeroMul v), convert v]) := by
  have hnd2 : (t2.map Prod.fst).Nodup := by rw [h2k]; exact hksnd
  have h1 : (add_to_cache cache id t1).lookup id
      = some (t1.map (fun kv => (kv.1, [convert kv.2]))) :=
    add_to_cache_lookup_none cache id t1 hc
  have hlk1 : ∀ f, (t1.map (fun kv => (kv.1, [convert kv.2]))).lookup f
      = (t1.lookup f).map (fun v => [convert v]) := by
    intro f
    exact lookup_map_value (fun v => [convert v]) t1 f
  have hlen1 : ∀ f vs,
      (t1.map (fun kv => (kv.1, [convert kv.2]))).lookup f = some vs → vs.length = 1 := by
    intro f vs h
    rw [hlk1 f] at h
    cases ht : t1.lookup f with
    | none => rw [ht] at h; simp at h
    | some v => rw [ht] at h; simp at h; rw [← h]; rfl
  have h2 : (addAll cache id [t1, t2]).lookup id
      = some (epStep (t1.map (fun kv => (kv.1, [convert kv.2]))) t2) := by
    have := add_to_cache_lookup_some (add_to_cache cache id t1) id t2 _ h1
    simpa [addAll] using this
  have hdom2 : ∀ f,
      ((epStep (t1.map (fun kv => (kv.1, [convert kv.2]))) t2).lookup f).isSome
        ↔ f ∈ ks := by
    intro f
    rw [epStep_lookup t2 _ hnd2 f]
    by_cases hf : f ∈ ks
    · have ht : (t2.lookup f).isSome := by rw [lookup_isSome_iff, h2k]; exact hf
      obtain ⟨v, hv⟩ := Option.isSome_iff_exists.mp ht
      rw [hv]
      cases hep : (t1.map (fun kv => (kv.1, [convert kv.2]))).lookup f <;> simp [hf]
    · have ht : t2.lookup f = none := by rw [lookup_none_iff, h2k]; exact hf
      have hep : (t1.map (fun kv => (kv.1, [convert kv.2]))).lookup f = none := by
        rw [hlk1 f]
        have : t1.lookup f = none := by
          rw [lookup_none_iff]
          intro hmem
          exact hf (ht1 f hmem)
        rw [this]; rfl
      rw [ht, hep]
      simp [hf]
  have hlen2 : ∀ f vs,
      (epStep (t1.map (fun kv => (kv.1, [convert kv.2]))) t2).lookup f = some vs →
        vs.length = 2 := by
    intro f vs hvs
    rw [epStep_lookup t2 _ hnd2 f] at hvs
    cases hep : (t1.map (fun kv => (kv.1, [convert kv.2]))).lookup f with
    | some vs0 =>
      cases ht : t2.lookup f with
      | some v =>
        rw [hep, ht] at hvs
        simp only [Option.some.injEq] at hvs
        rw [← hvs]
        have := hlen1 f vs0 hep
        simp [this]
      | none =>
        exfalso
        have hmem : f ∈ t1.map Prod.fst := by
          have : (t1.lookup f).isSome := by
            have := hlk1 f
            rw [hep] at this
            cases hx : t1.lookup f
            · rw [hx] at this; simp at this
            · simp
          rwa [lookup_isSome_iff] at this
        have : f ∈ ks := ht1 f hmem
        rw [lookup_none_iff, h2k] at ht
        exact ht this
    | none =>
      cases ht : t2.lookup f with
      | some v =>
        rw [hep, ht] at hvs
        simp only [Option.some.injEq] at hvs
        rw [← hvs]
        rfl
      | none =>
        rw [hep, ht] at hvs
        simp at hvs
  constructor
  · intro n h1n hn
    match n, h1n with
    | 1, _ =>
      refine ⟨t1.map (fun kv => (kv.1, [convert kv.2])), ?_, hlen1⟩
      simpa [addAll] using h1
    | (m + 2), _ =>
      have hm : m ≤ rest.length := by
        simpa using Nat.le_of_succ_le_succ (Nat.le_of_succ_le_succ hn)
      have htake : (t1 :: t2 :: rest).take (m + 2) = t1 :: t2 :: rest.take m := rfl
      rw [htake]
      have hrun : (addAll cache id (t1 :: t2 :: rest.take m)).lookup id
          = some (epFold (epStep (t1.map (fun kv => (kv.1, [convert kv.2]))) t2)
              (rest.take m)) := by
        have hbase : (add_to_cache (add_to_cache cache id t1) id t2).lookup id
            = some (epStep (t1.map (fun kv => (kv.1, [convert kv.2]))) t2) :=
          add_to_cache_lookup_some (add_to_cache cache id t1) id t2 _ h1
        have := addAll_lookup id (rest.take m)
          (add_to_cache (add_to_cache cache id t1) id t2) _ hbase
        simpa [addAll] using this
      have hinv := epFold_inv ks hksnd (rest.take m)
        (epStep (t1.map (fun kv => (kv.1, [convert kv.2]))) t2) 2
        (fun t ht => hrest t (List.mem_of_mem_take ht)) hdom2 hlen2
      refine ⟨_, hrun, ?_⟩
      intro f vs h
      have := hinv.2 f vs h
      have hlentake : (rest.take m).length = m := by
        rw [List.length_take]
        omega
      omega
  · intro f v hf1 hf2
    refine ⟨_, h2, ?_⟩
    rw [epStep_lookup t2 _ hnd2 f]
    have hep : (t1.map (fun kv => (kv.1, [convert kv.2]))).lookup f = none := by
      rw [hlk1 f, hf1]; rfl
    rw [hep, hf2]

/-- Test fixtures for the schema-drift witness. -/
def tA : Transition := [("reward", Val.rat 0)]

def tB : Transition := [("reward", Val.rat 1), ("action", Val.rat 5)]

def tC : Transition := [("reward", Val.rat 2), ("action", Val.rat 6)]

/-- Witness for `add_to_cache_equal_lengths`: after 3 disciplined inserts the
episode exists and every field has length 3. -/
theorem add_to_cache_equal_lengths_witness :
    ∃ ep, (addAll [] 0 [tA, tB, tC]).lookup 0 = some ep
      ∧ ∀ f vs, ep.lookup f = some vs → vs.length = 3 := by
  have h := (add_to_cache_equal_lengths [] 0 tA tB [tC] ["reward", "action"]
    rfl (by decide) (by decide) (by decide) (by decide)).1 3 (by decide) (by decide)
  simpa using h

/-- `bs` starts with `as` (character lists). -/
def startsWithChars : List Char → List Char → Bool
  | [], _ => true
  | _ :: _, [] => false
  | a :: as, b :: bs => a == b && startsWithChars as bs

/-- Some suffix of `cs` starts with `pat` (substring containment on
character lists). -/
def containsChars (pat : List Char) : List Char → Bool
  | [] => startsWithChars pat []
  | c :: cs => startsWithChars pat (c :: cs) || containsChars pat cs

/-- Python `"log_" in k`: substring containment used by `sample_episodes` to
strip diagnostic fields. -/
def containsLog (k : String) : Bool := containsChars "log_".data k.data

/-- The keys kept by the window comprehensions: `if "log_" not in k`. -/
def stripLogs {α : Type} (ep : List (FieldName × α)) : List (FieldName × α) :=
  ep.filter (fun kv => !containsLog kv.1)

/-- `len(next(iter(d.values())))`: the length of the first field's sequence,
`none` when the dict is empty (Python raises). -/
def firstFieldLen (ep : Episode) : Option Nat :=
  match ep with
  | [] => none
  | kv :: _ => some kv.2.length

/-- Python list slice `v[i:j]` (for `0 ≤ i ≤ j`), truncated at the end of the
list.  Slicing a Python list copies. -/
def pySlice (v : List Val) (i j : Nat) : List Val := (v.take j).drop i

abbrev Window := List (FieldName × List Val)

/-- First-draw window build (src/tools.py:963-967): slice every
non-diagnostic field at `[index, bound)`, `bound = min (index+length) total`. -/
def firstFields (ep : Episode) (index bound : Nat) : Window :=
  (stripLogs ep).map (fun kv => (kv.1, pySlice kv.2 index bound))

/-- Stitch-draw window build (src/tools.py:974-980): rebuild the window over
the non-diagnostic fields of the newly drawn episode, appending each field's
`[0, bound)` slice to the accumulated window's field; `none` models the
Python `KeyError` when the accumulated window lacks a field of the new
episode.  Fields of the old window absent from the new episode are dropped,
as in the dict comprehension. -/
def stitchFields (w : Window) : List (FieldName × List Val) → Nat → Option Window
  | [], _ => some []
  | kv :: rest, bound =>
      match w.lookup kv.1 with
      | none => none
      | some old =>
          match stitchFields w rest bound with
          | none => none
          | some out => some ((kv.1, old ++ pySlice kv.2 0 bound) :: out)

/-- `if "is_first" in ret: ret["is_first"][i] = True` (src/tools.py:968-969
and 981-982); `none` models the `IndexError` on an out-of-range index. -/
def setIsFirst (w : Window) (i : Nat) : Option Window :=
  match w.lookup "is_first" with
  | none => some w
  | some vs =>
      if i < vs.length then
        some (w.map (fun kv =>
          if kv.1 = "is_first" then (kv.1, vs.set i (Val.bool true)) else kv))
      else none

/-- The weight vector `p` of `sample_episodes` (src/tools.py:951-954): one
entry per episode — the length of the episode's first field — normalized by
the total; `none` when some episode is an empty dict (Python raises). -/
def sampleWeights (episodes : List Episode) : Option (List ℚ) :=
  (episodes.mapM firstFieldLen).map (fun lens =>
    lens.map (fun (l : Nat) => (l : ℚ) / ((lens.map (fun (x : Nat) => (x : ℚ))).sum)))

/-- One yield of the `sample_episodes` generator (src/tools.py:948-984), with
the randomness supplied as an oracle stream `rand`: each draw consumes one
stream element (the episode index chosen by `np_random.choice`, weighted by
`sampleWeights`), and an accepted first draw consumes a further element `r`
for `np_random.randint(0, total - 1)`, realized as `r % (total - 1)`.
`fuel` bounds the rejection loop; `none` stands for exhausted fuel, an
out-of-range stream element, or a raised Python exception — never for a
yielded window.  The `size < length` loop condition, the `total < 2`
rejection, the `not ret` truthiness test (`None` or the empty dict), and the
final `size` recomputation from the first field follow the source.  The
second result component is ghost provenance: each accepted episode index
paired with the window offset where its fragment starts. -/
def sampleLoop (episodes : List Episode) (length : Nat) :
    Nat → List Nat → Option Window → Nat → List (Nat × Nat) →
    Option (Window × List (Nat × Nat))
  | 0, _, _, _, _ => none
  | fuel + 1, rand, ret, size, prov =>
    if size < length then
      match rand with
      | [] => none
      | c :: rand' =>
        match episodes[c]? with
        | none => none
        | some episode =>
          match firstFieldLen episode with
          | none => none
          | some total =>
            if total < 2 then
              sampleLoop episodes length fuel rand' ret size prov
            else
              if (match ret with | none => true | some w => w.isEmpty) then
                match rand' with
                | [] => none
                | r :: rand'' =>
                  let index := r % (total - 1)
                  match setIsFirst (firstFields episode index
                      (min (index + length) total)) 0 with
                  | none => none
                  | some w1 =>
                    match firstFieldLen w1 with
                    | none => none
                    | some size' =>
                      sampleLoop episodes length fuel rand'' (some w1) size' [(c, 0)]
              else
                match ret with
                | none => none
                | some w =>
                  match stitchFields w (stripLogs episode) (min (length - size) total) with
                  | none => none
                  | some w2 =>
                    match setIsFirst w2 size with
                    | none => none
                    | some w3 =>
                      match firstFieldLen w3 with
                      | none => none
                      | some size' =>
                        sampleLoop episodes length fuel rand' (some w3) size'
                          (prov ++ [(c, size)])
    else
      match ret with
      | some w => some (w, prov)
      | none => none

/-- Synthetic three-step episode for sampler tests. -/
def epS : Episode :=
  [("obs", [Val.rat 0, Val.rat 1, Val.rat 2]),
   ("is_first", [Val.bool true, Val.bool false, Val.bool false])]

example :
    sampleLoop [epS] 2 5 [0, 0] none 0 []
      = some ([("obs", [Val.rat 0, Val.rat 1]),
               ("is_first", [Val.bool true, Val.bool false])], [(0, 0)]) := by decide

example :
    sampleLoop [epS] 5 8 [0, 1, 0] none 0 []
      = some ([("obs", [Val.rat 1, Val.rat 2, Val.rat 0, Val.rat 1, Val.rat 2]),
               ("is_first", [Val.bool true, Val.bool false, Val.bool true,
                             Val.bool false, Val.bool false])], [(0, 0), (0, 2)]) := by
  decide

lemma pySlice_length (v : List Val) (i j : Nat) :
    (pySlice v i j).length = min j v.length - i := by
  simp [pySlice]

lemma lookup_mem {α β : Type} [BEq α] [LawfulBEq α] :
    ∀ (l : List (α × β)) (k : α) (v : β), l.lookup k = some v → (k, v) ∈ l := by
  intro l
  induction l with
  | nil => intro k v h; simp [List.lookup] at h
  | cons hd t ih =>
    obtain ⟨k', v'⟩ := hd
    intro k v h
    by_cases hk : k = k'
    · subst hk
      rw [lookup_cons_self] at h
      injection h with h
      rw [← h]
      exact List.mem_cons_self _ _
    · rw [lookup_cons_ne k k' v' t hk] at h
      exact List.mem_cons_of_mem _ (ih k v h)

lemma getElem?_set_self_val (l : List Val) (i : Nat) (x : Val) (h : i < l.length) :
    (l.set i x)[i]? = some x :=
  List.getElem?_set_eq h

lemma set_append_len : ∀ (vs s : List Val) (x : Val),
    (vs ++ s).set vs.length x = vs ++ s.set 0 x := by
  intro vs
  induction vs with
  | nil => intro s x; rfl
  | cons a t ih =>
    intro s x
    simp only [List.cons_append, List.length_cons, List.set, List.append_eq]
    rw [ih]

lemma stitchFields_isSome_lookup (w : Window) :
    ∀ (l : List (FieldName × List Val)) (bound : Nat) (out : Window),
      stitchFields w l bound = some out → ∀ kv ∈ l, (w.lookup kv.1).isSome := by
  intro l
  induction l with
  | nil => intro bound out _ kv hkv; simp at hkv
  | cons kv0 rest ih =>
    intro bound out h kv hkv
    simp only [stitchFields] at h
    cases hw : w.lookup kv0.1 with
    | none => rw [hw] at h; simp at h
    | some old =>
      rw [hw] at h
      cases hr : stitchFields w rest bound with
      | none => rw [hr] at h; simp at h
      | some out' =>
        rcases List.mem_cons.mp hkv with hkv | hkv
        · rw [hkv]; simp [hw]
        · exact ih bound out' hr kv hkv

lemma stitchFields_mem (w : Window) :
    ∀ (l : List (FieldName × List Val)) (bound : Nat) (out : Window),
      stitchFields w l bound = some out → ∀ x ∈ out,
        ∃ kv ∈ l, ∃ old, w.lookup kv.1 = some old
          ∧ x = (kv.1, old ++ pySlice kv.2 0 bound) := by
  intro l
  induction l with
  | nil =>
    intro bound out h x hx
    simp only [stitchFields] at h
    injection h with h
    rw [← h] at hx
    simp at hx
  | cons kv0 rest ih =>
    intro bound out h x hx
    simp only [stitchFields] at h
    cases hw : w.lookup kv0.1 with
    | none => rw [hw] at h; simp at h
    | some old =>
      rw [hw] at h
      cases hr : stitchFields w rest bound with
      | none => rw [hr] at h; simp at h
      | some out' =>
        rw [hr] at h
        injection h with h
        rw [← h] at hx
        rcases List.mem_cons.mp hx with hx | hx
        · exact ⟨kv0, List.mem_cons_self _ _, old, hw, hx⟩
        · obtain ⟨kv, hkv, old', hold', hx'⟩ := ih bound out' hr x hx
          exact ⟨kv, List.mem_cons_of_mem _ hkv, old', hold', hx'⟩

lemma stitchFields_lookup (w : Window) :
    ∀ (l : List (FieldName × List Val)) (bound : Nat) (out : Window),
      stitchFields w l bound = some out → ∀ f,
        out.lookup f = (l.lookup f).map
          (fun v => ((w.lookup f).getD []) ++ pySlice v 0 bound) := by
  intro l
  induction l with
  | nil =>
    intro bound out h f
    simp only [stitchFields] at h
    injection h with h
    rw [← h]
    rfl
  | cons kv0 rest ih =>
    obtain ⟨k0, v0⟩ := kv0
    intro bound out h f
    simp only [stitchFields] at h
    cases hw : w.lookup k0 with
    | none => rw [hw] at h; simp at h
    | some old =>
      rw [hw] at h
      cases hr : stitchFields w rest bound with
      | none => rw [hr] at h; simp at h
      | some out' =>
        rw [hr] at h
        injection h with h
        rw [← h]
        by_cases hf : f = k0
        · subst hf
          rw [lookup_cons_self, lookup_cons_self, hw]
          rfl
        · rw [lookup_cons_ne f k0 _ out' hf, lookup_cons_ne f k0 v0 rest hf]
          exact ih bound out' hr f

lemma setIsFirst_of_none (w : Window) (i : Nat) (h : w.lookup "is_first" = none) :
    setIsFirst w i = some w := by
  simp [setIsFirst, h]

lemma setIsFirst_of_some (w : Window) (i : Nat) (vs : List Val)
    (h : w.lookup "is_first" = some vs) (hi : i < vs.length) :
    setIsFirst w i = some (w.map (fun kv =>
      if kv.1 = "is_first" then (kv.1, vs.set i (Val.bool true)) else kv)) := by
  simp [setIsFirst, h, hi]

lemma setIsFirst_spec (w : Window) (i : Nat) (w' : Window)
    (h : setIsFirst w i = some w') :
    (∀ kv' ∈ w', ∃ kv ∈ w, kv'.1 = kv.1 ∧
        (kv'.2 = kv.2 ∨ ∃ vs, w.lookup "is_first" = some vs
          ∧ kv'.2 = vs.set i (Val.bool true)))
    ∧ (∀ vs, w.lookup "is_first" = some vs →
        w'.lookup "is_first" = some (vs.set i (Val.bool true)) ∧ i < vs.length)
    ∧ (w.lookup "is_first" = none → w' = w) := by
  cases hw : w.lookup "is_first" with
  | none =>
    rw [setIsFirst_of_none w i hw] at h
    injection h with h
    subst h
    refine ⟨?_, ?_, fun _ => rfl⟩
    · intro kv' hkv'
      exact ⟨kv', hkv', rfl, Or.inl rfl⟩
    · intro vs hvs
      exact absurd hvs (by simp)
  | some vs =>
    by_cases hi : i < vs.length
    · rw [setIsFirst_of_some w i vs hw hi] at h
      injection h with h
      subst h
      refine ⟨?_, ?_, ?_⟩
      · intro kv' hkv'
        obtain ⟨kv, hkv, hmap⟩ := List.mem_map.mp hkv'
        by_cases hk : kv.1 = "is_first"
        · rw [if_pos hk] at hmap
          exact ⟨kv, hkv, by rw [← hmap], Or.inr ⟨vs, rfl, by rw [← hmap]⟩⟩
        · rw [if_neg hk] at hmap
          exact ⟨kv, hkv, by rw [← hmap], Or.inl (by rw [← hmap])⟩
      · intro vs' hvs'
        injection hvs' with h2
        subst h2
        exact ⟨lookup_map_ite_self w "is_first" _ (by simp [hw]), hi⟩
      · intro hnone
        exact absurd hnone (by simp)
    · rw [show setIsFirst w i = none by simp [setIsFirst, hw, hi]] at h
      cases h

lemma stripLogs_sub {ep : Episode} {kv : FieldName × List Val} (h : kv ∈ stripLogs ep) :
    kv ∈ ep :=
  (List.mem_filter.mp h).1

lemma firstFieldLen_total {ep : Episode} {total t : Nat}
    (htot : firstFieldLen ep = some total)
    (hfields : ∀ kv ∈ ep, kv.2.length = t) : total = t := by
  cases ep with
  | nil => simp [firstFieldLen] at htot
  | cons kv0 rest =>
    simp only [firstFieldLen] at htot
    injection htot with htot
    rw [← htot]
    exact hfields kv0 (List.mem_cons_self _ _)

lemma firstFieldLen_mem {w : Window} {size' : Nat}
    (hfl : firstFieldLen w = some size')
    (hlen : ∀ kv ∈ w, kv.2.length = size2) : size' = size2 := by
  cases w with
  | nil => simp [firstFieldLen] at hfl
  | cons kv0 rest =>
    simp only [firstFieldLen] at hfl
    injection hfl with hfl
    rw [← hfl]
    exact hlen kv0 (List.mem_cons_self _ _)

lemma firstDraw_props (episode : Episode) (length total index : Nat) (w1 : Window)
    (size' t : Nat)
    (ht2 : 2 ≤ t) (hfields : ∀ kv ∈ episode, kv.2.length = t)
    (htot : firstFieldLen episode = some total)
    (hidx : index < total - 1)
    (hlen : 1 ≤ length)
    (hset : setIsFirst (firstFields episode index (min (index + length) total)) 0
      = some w1)
    (hfl : firstFieldLen w1 = some size') :
    (∀ kv ∈ w1, kv.2.length = size') ∧ 1 ≤ size' ∧ size' ≤ length ∧ w1 ≠ []
    ∧ (∀ vs, w1.lookup "is_first" = some vs → vs[0]? = some (Val.bool true)) := by
  have htt : total = t := firstFieldLen_total htot hfields
  subst htt
  set bound := min (index + length) total with hbound
  set s0 := bound - index with hs0
  have hbt : bound ≤ total := min_le_right _ _
  have hbge : index + 1 ≤ bound := by
    have h1 : index + 1 ≤ index + length := by omega
    have h2 : index + 1 ≤ total := by omega
    omega
  have hw0len : ∀ kv ∈ firstFields episode index bound, kv.2.length = s0 := by
    intro kv hkv
    obtain ⟨kv1, hkv1, hmap⟩ := List.mem_map.mp hkv
    rw [← hmap]
    simp only [pySlice_length]
    have : kv1.2.length = total := hfields kv1 (stripLogs_sub hkv1)
    rw [this]
    omega
  have spec := setIsFirst_spec _ 0 w1 hset
  have hw1len : ∀ kv' ∈ w1, kv'.2.length = s0 := by
    intro kv' hkv'
    obtain ⟨kv, hkv, hk1, hcase⟩ := spec.1 kv' hkv'
    rcases hcase with hcase | ⟨vs, hvs, hcase⟩
    · rw [hcase]; exact hw0len kv hkv
    · rw [hcase, List.length_set]
      exact hw0len _ (lookup_mem _ _ _ hvs)
  have hsz' : size' = s0 := firstFieldLen_mem hfl hw1len
  subst hsz'
  refine ⟨hw1len, by omega, by omega, ?_, ?_⟩
  · intro hnil
    rw [hnil] at hfl
    simp [firstFieldLen] at hfl
  · intro vs1 hvs1
    cases hw0 : (firstFields episode index bound).lookup "is_first" with
    | none =>
      rw [spec.2.2 hw0] at hvs1
      rw [hw0] at hvs1
      cases hvs1
    | some vs =>
      have h2 := spec.2.1 vs hw0
      rw [h2.1] at hvs1
      injection hvs1 with hvs1
      rw [← hvs1]
      exact getElem?_set_self_val vs 0 (Val.bool true) h2.2

lemma stitchDraw_props (w : Window) (episode : Episode)
    (length size total : Nat) (w2 w3 : Window) (size' t : Nat)
    (prov : List (Nat × Nat))
    (ht2 : 2 ≤ t) (hfields : ∀ kv ∈ episode, kv.2.length = t)
    (htot : firstFieldLen episode = some total)
    (hwlen : ∀ kv ∈ w, kv.2.length = size)
    (hsz : size < length)
    (hst : stitchFields w (stripLogs episode) (min (length - size) total) = some w2)
    (hset : setIsFirst w2 size = some w3)
    (hfl : firstFieldLen w3 = some size')
    (hprovOk : ∀ co ∈ prov, co.2 < size)
    (hisf : ∀ vs, w.lookup "is_first" = some vs →
      ∀ co ∈ prov, vs[co.2]? = some (Val.bool true)) :
    (∀ kv ∈ w3, kv.2.length = size') ∧ size < size' ∧ size' ≤ length ∧ w3 ≠ []
    ∧ (∀ vs3, w3.lookup "is_first" = some vs3 →
        (∀ co ∈ prov, vs3[co.2]? = some (Val.bool true))
        ∧ vs3[size]? = some (Val.bool true)) := by
  have htt : total = t := firstFieldLen_total htot hfields
  subst htt
  set bound := min (length - size) total with hbound
  have hbpos : 1 ≤ bound := by
    have h1 : 1 ≤ length - size := by omega
    have h2 : 1 ≤ total := by omega
    omega
  have hbt : bound ≤ total := min_le_right _ _
  set size2 := size + bound with hsize2
  have hw2len : ∀ x ∈ w2, x.2.length = size2 := by
    intro x hx
    obtain ⟨kv, hkv, old, hold, hx'⟩ := stitchFields_mem w _ _ _ hst x hx
    rw [hx']
    simp only [List.length_append, pySlice_length]
    have h1 : old.length = size := hwlen _ (lookup_mem _ _ _ hold)
    have h2 : kv.2.length = total := hfields kv (stripLogs_sub hkv)
    rw [h1, h2]
    omega
  have spec := setIsFirst_spec w2 size w3 hset
  have hw3len : ∀ kv' ∈ w3, kv'.2.length = size2 := by
    intro kv' hkv'
    obtain ⟨kv, hkv, hk1, hcase⟩ := spec.1 kv' hkv'
    rcases hcase with hcase | ⟨vs, hvs, hcase⟩
    · rw [hcase]; exact hw2len kv hkv
    · rw [hcase, List.length_set]
      exact hw2len _ (lookup_mem _ _ _ hvs)
  have hsz' : size' = size2 := firstFieldLen_mem hfl hw3len
  subst hsz'
  refine ⟨hw3len, by omega, by omega, ?_, ?_⟩
  · intro hnil
    rw [hnil] at hfl
    simp [firstFieldLen] at hfl
  · intro vs3 hvs3
    cases hw2isf : w2.lookup "is_first" with
    | none =>
      rw [spec.2.2 hw2isf] at hvs3
      rw [hw2isf] at hvs3
      cases hvs3
    | some X =>
      have h2 := spec.2.1 X hw2isf
      rw [h2.1] at hvs3
      injection hvs3 with hvs3
      have hXeq := stitchFields_lookup w _ _ _ hst "is_first"
      rw [hw2isf] at hXeq
      obtain ⟨v0, hv0, hX⟩ := (Option.map_eq_some'.mp hXeq.symm)
      have hwisf : (w.lookup "is_first").isSome :=
        stitchFields_isSome_lookup w _ _ _ hst ("is_first", v0) (lookup_mem _ _ _ hv0)
      obtain ⟨vs, hvseq⟩ := Option.isSome_iff_exists.mp hwisf
      have hvslen : vs.length = size := hwlen _ (lookup_mem _ _ _ hvseq)
      rw [hvseq] at hX
      simp only [Option.getD_some] at hX
      have hslicelen : (pySlice v0 0 bound).length = bound := by
        rw [pySlice_length]
        have hv0len : v0.length = total :=
          hfields ("is_first", v0) (stripLogs_sub (lookup_mem _ _ _ hv0))
        rw [hv0len]
        omega
      have hvs3eq : vs3 = vs ++ (pySlice v0 0 bound).set 0 (Val.bool true) := by
        rw [← hvs3, ← hX, ← hvslen, set_append_len]
      constructor
      · intro co hco
        have hcosz := hprovOk co hco
        rw [hvs3eq, List.getElem?_append_left (by omega : co.2 < vs.length)]
        exact hisf vs hvseq co hco
      · rw [hvs3eq, List.getElem?_append_right (by omega : vs.length ≤ size)]
        rw [show size - vs.length = 0 by omega]
        exact getElem?_set_self_val _ 0 _ (by omega)

lemma sampleLoop_spec (episodes : List Episode) (length : Nat)
    (heps : ∀ ep ∈ episodes, ∃ t, 2 ≤ t ∧ ∀ kv ∈ ep, kv.2.length = t) :
    ∀ (fuel : Nat) (rand : List Nat) (ret : Option Window) (size : Nat)
      (prov : List (Nat × Nat)) (w' : Window) (prov' : List (Nat × Nat)),
      ((ret = none ∧ size = 0 ∧ prov = []) ∨
        (∃ w, ret = some w ∧ w ≠ [] ∧ (∀ kv ∈ w, kv.2.length = size) ∧
          size ≤ length ∧ 1 ≤ size ∧
          (∀ co ∈ prov, co.2 < size) ∧
          (∃ c0, prov.head? = some (c0, 0)) ∧
          (∀ co ∈ prov, ∃ ep t, episodes[co.1]? = some ep
            ∧ firstFieldLen ep = some t ∧ 2 ≤ t) ∧
          (∀ vs, w.lookup "is_first" = some vs →
            ∀ co ∈ prov, vs[co.2]? = some (Val.bool true)))) →
      sampleLoop episodes length fuel rand ret size prov = some (w', prov') →
      (∀ kv ∈ w', kv.2.length = length) ∧
      (∃ c0, prov'.head? = some (c0, 0)) ∧
      (∀ co ∈ prov', ∃ ep t, episodes[co.1]? = some ep
        ∧ firstFieldLen ep = some t ∧ 2 ≤ t) ∧
      (∀ vs, w'.lookup "is_first" = some vs →
        ∀ co ∈ prov', vs[co.2]? = some (Val.bool true)) := by
  intro fuel
  induction fuel with
  | zero =>
    intro rand ret size prov w' prov' _ hrun
    simp [sampleLoop] at hrun
  | succ fuel ih =>
    intro rand ret size prov w' prov' hinv hrun
    simp only [sampleLoop] at hrun
    by_cases hsz : size < length
    · rw [if_pos hsz] at hrun
      cases rand with
      | nil => simp at hrun
      | cons c rand' =>
        cases hgetc : episodes[c]? with
        | none => simp [hgetc] at hrun
        | some episode =>
          simp only [hgetc] at hrun
          cases htot : firstFieldLen episode with
          | none => simp [htot] at hrun
          | some total =>
            simp only [htot] at hrun
            by_cases htot2 : total < 2
            · rw [if_pos htot2] at hrun
              exact ih rand' ret size prov w' prov' hinv hrun
            · rw [if_neg htot2] at hrun
              obtain ⟨t, ht2, hfields⟩ := heps episode (List.getElem?_mem hgetc)
              rcases hinv with ⟨hret, hsize, hprovnil⟩ |
                ⟨w, hret, hwne, hwlen, hle, hge, hprovlt, hhead, hvalid, hisf⟩
              · -- first draw
                subst hret hsize hprovnil
                simp only [] at hrun
                cases rand' with
                | nil => simp at hrun
                | cons r rand'' =>
                  cases hset : setIsFirst (firstFields episode (r % (total - 1))
                      (min (r % (total - 1) + length) total)) 0 with
                  | none => simp [hset] at hrun
                  | some w1 =>
                    simp only [hset] at hrun
                    cases hfl : firstFieldLen w1 with
                    | none => simp [hfl] at hrun
                    | some size' =>
                      simp only [hfl] at hrun
                      have props := firstDraw_props episode length total
                        (r % (total - 1)) w1 size' t ht2 hfields htot
                        (Nat.mod_lt r (by omega)) (by omega) hset hfl
                      refine ih rand'' (some w1) size' [(c, 0)] w' prov'
                        (Or.inr ⟨w1, rfl, props.2.2.2.1, props.1, props.2.2.1,
                          props.2.1, ?_, ⟨c, rfl⟩, ?_, ?_⟩) hrun
                      · intro co hco
                        rw [List.mem_singleton.mp hco]
                        exact props.2.1
                      · intro co hco
                        rw [List.mem_singleton.mp hco]
                        exact ⟨episode, total, hgetc, htot, by omega⟩
                      · intro vs hvs co hco
                        rw [List.mem_singleton.mp hco]
                        exact props.2.2.2.2 vs hvs
              · -- stitch draw
                subst hret
                have hemp : w.isEmpty = false := by
                  cases w with
                  | nil => exact absurd rfl hwne
                  | cons kv rest => rfl
                simp only [hemp, Bool.false_eq_true, if_false] at hrun
                cases hst : stitchFields w (stripLogs episode)
                    (min (length - size) total) with
                | none => simp [hst] at hrun
                | some w2 =>
                  simp only [hst] at hrun
                  cases hset : setIsFirst w2 size with
                  | none => simp [hset] at hrun
                  | some w3 =>
                    simp only [hset] at hrun
                    cases hfl : firstFieldLen w3 with
                    | none => simp [hfl] at hrun
                    | some size' =>
                      simp only [hfl] at hrun
                      have props := stitchDraw_props w episode length size total
                        w2 w3 size' t prov ht2 hfields htot hwlen hsz hst hset hfl
                        hprovlt hisf
                      refine ih rand' (some w3) size' (prov ++ [(c, size)]) w' prov'
                        (Or.inr ⟨w3, rfl, props.2.2.2.1, props.1, props.2.2.1,
                          by omega, ?_, ?_, ?_, ?_⟩) hrun
                      · intro co hco
                        rcases List.mem_append.mp hco with hco | hco
                        · have := hprovlt co hco
                          have := props.2.1
                          omega
                        · rw [List.mem_singleton.mp hco]
                          exact props.2.1
                      · obtain ⟨c0, hc0⟩ := hhead
                        cases prov with
                        | nil => simp at hc0
                        | cons p ps =>
                          refine ⟨c0, ?_⟩
                          simpa using hc0
                      · intro co hco
                        rcases List.mem_append.mp hco with hco | hco
                        · exact hvalid co hco
                        · rw [List.mem_singleton.mp hco]
                          exact ⟨episode, total, hgetc, htot, by omega⟩
                      · intro vs hvs co hco
                        have hprops := props.2.2.2.2 vs hvs
                        rcases List.mem_append.mp hco with hco | hco
                        · exact hprops.1 co hco
                        · rw [List.mem_singleton.mp hco]
                          exact hprops.2
    · rw [if_neg hsz] at hrun
      rcases hinv with ⟨hret, _, _⟩ |
        ⟨w, hret, hwne, hwlen, hle, hge, hprovlt, hhead, hvalid, hisf⟩
      · subst hret
        simp at hrun
      · subst hret
        simp only [Option.some.injEq, Prod.mk.injEq] at hrun
        obtain ⟨hw, hp⟩ := hrun
        subst hw hp
        have hsize : size = length := le_antisymm hle (not_lt.mp hsz)
        subst hsize
        exact ⟨hwlen, hhead, hvalid, hisf⟩

lemma sampleLoop_accepted (episodes : List Episode) (length : Nat) :
    ∀ (fuel : Nat) (rand : List Nat) (ret : Option Window) (size : Nat)
      (prov : List (Nat × Nat)) (w' : Window) (prov' : List (Nat × Nat)),
      (∀ co ∈ prov, ∃ ep t, episodes[co.1]? = some ep
        ∧ firstFieldLen ep = some t ∧ 2 ≤ t) →
      sampleLoop episodes length fuel rand ret size prov = some (w', prov') →
      ∀ co ∈ prov', ∃ ep t, episodes[co.1]? = some ep
        ∧ firstFieldLen ep = some t ∧ 2 ≤ t := by
  intro fuel
  induction fuel with
  | zero =>
    intro rand ret size prov w' prov' _ hrun
    simp [sampleLoop] at hrun
  | succ fuel ih =>
    intro rand ret size prov w' prov' hprov hrun
    simp only [sampleLoop] at hrun
    by_cases hsz : size < length
    · rw [if_pos hsz] at hrun
      cases rand with
      | nil => simp at hrun
      | cons c rand' =>
        cases hgetc : episodes[c]? with
        | none => simp [hgetc] at hrun
        | some episode =>
          simp only [hgetc] at hrun
          cases htot : firstFieldLen episode with
          | none => simp [htot] at hrun
          | some total =>
            simp only [htot] at hrun
            by_cases htot2 : total < 2
            · rw [if_pos htot2] at hrun
              exact ih rand' ret size prov w' prov' hprov hrun
            · rw [if_neg htot2] at hrun
              cases ret with
              | none =>
                simp only [] at hrun
                cases rand' with
                | nil => simp at hrun
                | cons r rand'' =>
                  cases hset : setIsFirst (firstFields episode (r % (total - 1))
                      (min (r % (total - 1) + length) total)) 0 with
                  | none => simp [hset] at hrun
                  | some w1 =>
                    simp only [hset] at hrun
                    cases hfl : firstFieldLen w1 with
                    | none => simp [hfl] at hrun
                    | some size' =>
                      simp only [hfl] at hrun
                      refine ih rand'' (some w1) size' [(c, 0)] w' prov' ?_ hrun
                      intro co hco
                      rw [List.mem_singleton.mp hco]
                      exact ⟨episode, total, hgetc, htot, by omega⟩
              | some w =>
                cases hemp : List.isEmpty w with
                | true =>
                  simp only [hemp] at hrun
                  cases rand' with
                  | nil => simp at hrun
                  | cons r rand'' =>
                    cases hset : setIsFirst (firstFields episode (r % (total - 1))
                        (min (r % (total - 1) + length) total)) 0 with
                    | none => simp [hset] at hrun
                    | some w1 =>
                      simp only [hset] at hrun
                      cases hfl : firstFieldLen w1 with
                      | none => simp [hfl] at hrun
                      | some size' =>
                        simp only [hfl] at hrun
                        refine ih rand'' (some w1) size' [(c, 0)] w' prov' ?_ hrun
                        intro co hco
                        rw [List.mem_singleton.mp hco]
                        exact ⟨episode, total, hgetc, htot, by omega⟩
                | false =>
                  simp only [hemp, Bool.false_eq_true, if_false] at hrun
                  cases hst : stitchFields w (stripLogs episode)
                      (min (length - size) total) with
                  | none => simp [hst] at hrun
                  | some w2 =>
                    simp only [hst] at hrun
                    cases hset : setIsFirst w2 size with
                    | none => simp [hset] at hrun
                    | some w3 =>
                      simp only [hset] at hrun
                      cases hfl : firstFieldLen w3 with
                      | none => simp [hfl] at hrun
                      | some size' =>
                        simp only [hfl] at hrun
                        refine ih rand' (some w3) size' (prov ++ [(c, size)])
                          w' prov' ?_ hrun
                        intro co hco
                        rcases List.mem_append.mp hco with hco | hco
                        · exact hprov co hco
                        · rw [List.mem_singleton.mp hco]
                          exact ⟨episode, total, hgetc, htot, by omega⟩
    · rw [if_neg hsz] at hrun
      cases ret with
      | none => simp at hrun
      | some w =>
        simp only [Option.some.injEq, Prod.mk.injEq] at hrun
        obtain ⟨_, hp⟩ := hrun
        subst hp
        exact hprov

/-- **C3.**  Every window the sampler yields (over episodes whose fields are
equal-length with at least 2 entries, and a positive window length) has time
length exactly `length` in every field, and its `is_first` field, when
present, is true at index 0 and at every stitch boundary — the provenance
offset at which each accepted episode fragment was concatenated (the first
fragment starts at offset 0). -/
theorem sample_episodes_window (episodes : List Episode) (length fuel : Nat)
    (rand : List Nat) (w : Window) (prov : List (Nat × Nat))
    (hlen : 0 < length)
    (heps : ∀ ep ∈ episodes, ∃ t, 2 ≤ t ∧ ∀ kv ∈ ep, kv.2.length = t)
    (hrun : sampleLoop episodes length fuel rand none 0 [] = some (w, prov)) :
    (∀ kv ∈ w, kv.2.length = length) ∧
    (∀ vs, w.lookup "is_first" = some vs →
      vs[0]? = some (Val.bool true)
      ∧ ∀ co ∈ prov, vs[co.2]? = some (Val.bool true)) := by
  have h := sampleLoop_spec episodes length heps fuel rand none 0 [] w prov
    (Or.inl ⟨rfl, rfl, rfl⟩) hrun
  refine ⟨h.1, ?_⟩
  intro vs hvs
  refine ⟨?_, h.2.2.2 vs hvs⟩
  obtain ⟨c0, hc0⟩ := h.2.1
  cases prov with
  | nil => simp at hc0
  | cons p ps =>
    have hp : p = (c0, 0) := by simpa using hc0
    have := h.2.2.2 vs hvs p (List.mem_cons_self p ps)
    rw [hp] at this
    exact this

/-- Witness for `sample_episodes_window` at a concrete cache: one 3-step
episode, window length 2, yielding a 2-step window with `is_first` true at
its single fragment offset 0. -/
theorem sample_episodes_window_witness :
    (∀ kv ∈ ([("obs", [Val.rat 0, Val.rat 1]),
        ("is_first", [Val.bool true, Val.bool false])] : Window),
      kv.2.length = 2) ∧
    (∀ vs, ([("obs", [Val.rat 0, Val.rat 1]),
        ("is_first", [Val.bool true, Val.bool false])] : Window).lookup "is_first"
          = some vs →
      vs[0]? = some (Val.bool true)
      ∧ ∀ co ∈ [((0 : Nat), (0 : Nat))], vs[co.2]? = some (Val.bool true)) :=
  sample_episodes_window [epS] 2 5 [0, 0] _ [(0, 0)] (by decide)
    (fun ep hep => by
      rw [List.mem_singleton.mp hep]
      exact ⟨3, by decide, by decide⟩)
    (by decide)

/-- **C6, counterexample.**  The weight vector is proportional to episode
*entry counts*, not transition counts: two episodes with 2 and 4 entries
(1 and 3 transitions) get weights 1/3 and 2/3, which are not proportional to
1 and 3.  And an episode with exactly one transition (2 entries — fewer than
2 transitions) is accepted, and its fragment is yielded in a window. -/
theorem sample_episodes_weights_cex :
    sampleWeights [epR 2, epR 4] = some [1/3, 2/3]
    ∧ (¬ ∃ k : ℚ, (1 : ℚ)/3 = k * 1 ∧ (2 : ℚ)/3 = k * 3)
    ∧ sampleLoop [epR 2] 1 3 [0, 0] none 0 []
        = some ([("reward", [Val.rat 0])], [(0, 0)])
    ∧ rewardLen (epR 2) - 1 < 2 := by
  refine ⟨?_, ?_, by decide, by decide⟩
  · have h : ([epR 2, epR 4].mapM firstFieldLen) = some [2, 4] := by rfl
    rw [sampleWeights, h]
    norm_num
  · rintro ⟨k, h1, h2⟩
    have hk : k = 1/3 := by linarith
    rw [hk] at h2
    norm_num at h2

/-- **C6, amended.**  On each draw the sampler selects an episode with
probability proportional to the episode's *entry count* (the length of its
first field, i.e. transition count plus the seed frame): every weight equals
its episode's entry count divided by the total, so weight times total equals
the entry count.  An episode with fewer than 2 entries is rejected by a
silent redraw — the loop continues with the rest of the stream — so every
accepted draw recorded in a yielded window's provenance has at least 2
entries and no fragment of a smaller episode ever appears. -/
theorem sample_episodes_accept (episodes : List Episode) (length : Nat) :
    (∀ (lens : List Nat) (ws : List ℚ) (i l : Nat) (q : ℚ),
      episodes.mapM firstFieldLen = some lens →
      sampleWeights episodes = some ws →
      lens[i]? = some l → ws[i]? = some q →
      q * ((lens.map (fun (x : Nat) => (x : ℚ))).sum) = (l : ℚ))
    ∧ (∀ fuel rand ret size prov w' prov',
        sampleLoop episodes length fuel rand ret size prov = some (w', prov') →
        (∀ co ∈ prov, ∃ ep t, episodes[co.1]? = some ep
          ∧ firstFieldLen ep = some t ∧ 2 ≤ t) →
        ∀ co ∈ prov', ∃ ep t, episodes[co.1]? = some ep
          ∧ firstFieldLen ep = some t ∧ 2 ≤ t)
    ∧ (∀ fuel c rand' ret size prov ep total,
        episodes[c]? = some ep → firstFieldLen ep = some total → total < 2 →
        size < length →
        sampleLoop episodes length (fuel + 1) (c :: rand') ret size prov
          = sampleLoop episodes length fuel rand' ret size prov) := by
  refine ⟨?_, ?_, ?_⟩
  · intro lens ws i l q hlens hws hl hq
    simp only [sampleWeights, hlens, Option.map_some'] at hws
    injection hws with hws
    subst hws
    simp only [List.getElem?_map, hl, Option.map_some'] at hq
    injection hq with hq
    subst hq
    set S := (lens.map (fun (x : Nat) => (x : ℚ))).sum with hS
    by_cases hS0 : S = 0
    · have hl0 : (l : ℚ) = 0 := by
        have hmem : (l : ℚ) ∈ lens.map (fun (x : Nat) => (x : ℚ)) :=
          List.mem_map_of_mem _ (List.getElem?_mem hl)
        have hle : (l : ℚ) ≤ S :=
          List.single_le_sum (fun x hx => by
            obtain ⟨y, _, hy⟩ := List.mem_map.mp hx
            rw [← hy]
            positivity) _ hmem
        have : (0 : ℚ) ≤ (l : ℚ) := by positivity
        rw [hS0] at hle
        linarith
      rw [hS0, hl0]
      simp
    · field_simp
  · intro fuel rand ret size prov w' prov' hrun hprov
    exact sampleLoop_accepted episodes length fuel rand ret size prov w' prov'
      hprov hrun
  · intro fuel c rand' ret size prov ep total hget htot htot2 hsz
    simp [sampleLoop, hget, htot, if_pos htot2, hsz]

/-- Witness for `sample_episodes_accept` at the concrete one-episode cache of
the window witness: the weight is 3/3, the yielded provenance only names the
3-entry episode, and a rejected draw is a silent redraw. -/
theorem sample_episodes_accept_witness :
    ((1 : ℚ) * ((([3] : List Nat).map (fun (x : Nat) => (x : ℚ))).sum) = ((3 : Nat) : ℚ))
    ∧ (∀ co ∈ [((0 : Nat), (0 : Nat))], ∃ ep t, [epS][co.1]? = some ep
        ∧ firstFieldLen ep = some t ∧ 2 ≤ t) := by
  constructor
  · refine (sample_episodes_accept [epS] 2).1 [3] [1] 0 3 1 (by rfl) ?_ (by rfl) (by rfl)
    have h : ([epS].mapM firstFieldLen) = some [3] := by rfl
    rw [sampleWeights, h]
    norm_num
  · exact (sample_episodes_accept [epS] 2).2.1 5 [0, 0] none 0 []
      [("obs", [Val.rat 0, Val.rat 1]),
       ("is_first", [Val.bool true, Val.bool false])] [(0, 0)]
      (by decide) (by simp)

/-! ### Store semantics for the sampler (mutation and aliasing)

To settle what `sample_episodes` does to the cached episodes, the same loop
(src/tools.py:948-984) is embedded once more against an explicit store of
array objects.  The sampler's inputs are episode mappings whose field values
are numpy arrays — `load_episodes` (src/tools.py:996) returns exactly such
mappings — and for a numpy array `v` the slice `v[index:bound]` of
src/tools.py:964 is a *view*: it aliases `v`'s storage from offset `index`
instead of copying.  Episode fields therefore hold store cell indices, a
window field is a view `(cell, offset, extent)`, `np.append`
(src/tools.py:975) reads both arguments and allocates a fresh cell, and the
in-place `ret["is_first"][i] = True` (src/tools.py:969 and 982) writes
through the view into the underlying cell — on a first draw that cell is the
cached episode's own `is_first` array. -/

abbrev Store := List (List Val)

abbrev SEpisode := List (FieldName × Nat)

/-- A window field under view semantics: the underlying store cell, the
view's starting offset in it, and the view's nominal extent. -/
abbrev ViewRef := Nat × Nat × Nat

abbrev VWindow := List (FieldName × ViewRef)

/-- Dereference a store cell (out-of-range reads as the empty list; runs that
matter only ever read live cells). -/
def readCell (st : Store) (c : Nat) : List Val := (st[c]?).getD []

/-- Allocate a fresh array object holding `vs`. -/
def alloc (st : Store) (vs : List Val) : Store × Nat := (st ++ [vs], st.length)

/-- Overwrite the contents of an existing cell (in-place array mutation). -/
def writeCell (st : Store) (c : Nat) (vs : List Val) : Store := st.set c vs

/-- `len(next(iter(d.values())))` over an episode of cell references. -/
def firstFieldLenS (st : Store) (ep : SEpisode) : Option Nat :=
  match ep with
  | [] => none
  | kv :: _ => some (readCell st kv.2).length

/-- The array a view denotes: the slice `v[off : off + extent]` of its cell's
current contents. -/
def viewVals (st : Store) (v : ViewRef) : List Val :=
  pySlice (readCell st v.1) v.2.1 (v.2.1 + v.2.2)

/-- First-draw build (src/tools.py:963-967): each non-diagnostic field of the
window becomes a view of the episode's own cell at offset `index`; nothing is
allocated or copied and the store is untouched. -/
def firstFieldsV (index bound : Nat) (l : List (FieldName × Nat)) : VWindow :=
  l.map (fun kv => (kv.1, (kv.2, index, bound - index)))

/-- `len(next(iter(ret.values())))` over a view window: the actual length of
the first field's view. -/
def firstFieldLenV (st : Store) (w : VWindow) : Option Nat :=
  match w with
  | [] => none
  | kv :: _ => some (viewVals st kv.2).length

/-- Stitch build (src/tools.py:974-980): `np.append` reads the accumulated
view and the episode slice and allocates a fresh array for each field, so the
stitched window views fresh cells from offset 0; `none` is the `KeyError`
when the accumulated window lacks a field. -/
def stitchFieldsV (w : VWindow) : Store → List (FieldName × Nat) → Nat →
    Option (Store × VWindow)
  | st, [], _ => some (st, [])
  | st, kv :: rest, bound =>
      match w.lookup kv.1 with
      | none => none
      | some oldv =>
          let vs := viewVals st oldv ++ pySlice (readCell st kv.2) 0 bound
          let r := alloc st vs
          match stitchFieldsV w r.1 rest bound with
          | none => none
          | some q => some (q.1, (kv.1, (r.2, 0, vs.length)) :: q.2)

/-- `ret["is_first"][i] = True` (src/tools.py:969, 982) under view semantics:
an in-place write through the view into position `offset + i` of the
underlying cell; `none` is the `IndexError` when `i` falls outside the
view. -/
def setIsFirstV (st : Store) (w : VWindow) (i : Nat) : Option Store :=
  match w.lookup "is_first" with
  | none => some st
  | some v =>
      if i < (viewVals st v).length then
        some (writeCell st v.1 ((readCell st v.1).set (v.2.1 + i) (Val.bool true)))
      else none

/-- One yield of `sample_episodes` under view semantics: the mirror of
`sampleLoop` with the store threaded through every write and allocation. -/
def sampleLoopV (episodes : List SEpisode) (length : Nat) :
    Nat → List Nat → Store → Option VWindow → Nat → Option (Store × VWindow)
  | 0, _, _, _, _ => none
  | fuel + 1, rand, st, ret, size =>
    if size < length then
      match rand with
      | [] => none
      | c :: rand' =>
        match episodes[c]? with
        | none => none
        | some episode =>
          match firstFieldLenS st episode with
          | none => none
          | some total =>
            if total < 2 then
              sampleLoopV episodes length fuel rand' st ret size
            else
              if (match ret with | none => true | some w => w.isEmpty) then
                match rand' with
                | [] => none
                | r :: rand'' =>
                  let index := r % (total - 1)
                  let w := firstFieldsV index (min (index + length) total)
                      (stripLogs episode)
                  match setIsFirstV st w 0 with
                  | none => none
                  | some st1 =>
                    match firstFieldLenV st1 w with
                    | none => none
                    | some size' =>
                      sampleLoopV episodes length fuel rand'' st1 (some w) size'
              else
                match ret with
                | none => none
                | some w =>
                  match stitchFieldsV w st (stripLogs episode)
                      (min (length - size) total) with
                  | none => none
                  | some sw =>
                    match setIsFirstV sw.1 sw.2 size with
                    | none => none
                    | some st1 =>
                      match firstFieldLenV st1 sw.2 with
                      | none => none
                      | some size' =>
                        sampleLoopV episodes length fuel rand' st1 (some sw.2) size'
    else
      match ret with
      | some w => some (st, w)
      | none => none

/-- The stitch build only allocates: the store grows, pre-existing cells are
untouched, and every cell the stitched window views is fresh. -/
lemma stitchFieldsV_spec (w : VWindow) :
    ∀ (l : List (FieldName × Nat)) (st : Store) (bound : Nat)
      (st' : Store) (out : VWindow),
      stitchFieldsV w st l bound = some (st', out) →
      st.length ≤ st'.length
      ∧ (∀ c < st.length, st'[c]? = st[c]?)
      ∧ (∀ kv ∈ out, st.length ≤ kv.2.1) := by
  intro l
  induction l with
  | nil =>
    intro st bound st' out h
    simp only [stitchFieldsV] at h
    injection h with h
    injection h with h1 h2
    subst h1
    subst h2
    exact ⟨le_refl _, fun c _ => rfl, by simp⟩
  | cons kv rest ih =>
    intro st bound st' out h
    simp only [stitchFieldsV] at h
    cases hw : w.lookup kv.1 with
    | none => rw [hw] at h; simp at h
    | some oldv =>
      rw [hw] at h
      simp only [alloc] at h
      cases hr : stitchFieldsV w
          (st ++ [viewVals st oldv ++ pySlice (readCell st kv.2) 0 bound]) rest bound with
      | none => rw [hr] at h; simp at h
      | some q =>
        rw [hr] at h
        injection h with h
        obtain ⟨q1, q2⟩ := q
        injection h with h1 h2
        subst h1
        subst h2
        have hrec := ih _ bound q1 q2 hr
        refine ⟨?_, ?_, ?_⟩
        · calc st.length
              ≤ (st ++ [viewVals st oldv ++ pySlice (readCell st kv.2) 0 bound]).length := by
                simp
            _ ≤ _ := hrec.1
        · intro c hc
          rw [hrec.2.1 c (by simp; omega)]
          exact List.getElem?_append_left hc
        · intro kv' hkv'
          rcases List.mem_cons.mp hkv' with hkv' | hkv'
          · rw [hkv']
          · have := hrec.2.2 kv' hkv'
            simp at this
            omega

/-- Effect of the in-place `is_first` write: the store keeps its shape, cells
other than the view's target are untouched, and in the target cell every
position either keeps its value or is overwritten with `True`. -/
lemma setIsFirstV_spec (st : Store) (w : VWindow) (i : Nat) (st' : Store)
    (h : setIsFirstV st w i = some st') :
    st'.length = st.length
    ∧ (∀ c, (∀ v, w.lookup "is_first" = some v → v.1 ≠ c) → st'[c]? = st[c]?)
    ∧ (∀ c, (readCell st' c).length = (readCell st c).length
        ∧ ∀ j : Nat, (readCell st' c)[j]? = (readCell st c)[j]?
            ∨ (readCell st' c)[j]? = some (Val.bool true)) := by
  cases hlk : w.lookup "is_first" with
  | none =>
    simp only [setIsFirstV, hlk] at h
    injection h with h
    subst h
    exact ⟨rfl, fun c _ => rfl, fun c => ⟨rfl, fun j => Or.inl rfl⟩⟩
  | some v =>
    simp only [setIsFirstV, hlk] at h
    by_cases hi : i < (viewVals st v).length
    · rw [if_pos hi] at h
      injection h with h
      subst h
      refine ⟨by simp [writeCell], ?_, ?_⟩
      · intro c hc
        simp only [writeCell]
        exact List.getElem?_set_ne (hc v rfl)
      · intro c
        by_cases hcv : v.1 = c
        · subst hcv
          by_cases hv : v.1 < st.length
          · have hread : readCell (writeCell st v.1
                ((readCell st v.1).set (v.2.1 + i) (Val.bool true))) v.1
                = (readCell st v.1).set (v.2.1 + i) (Val.bool true) := by
              simp only [readCell, writeCell]
              rw [List.getElem?_set_eq hv]
              rfl
            rw [hread]
            constructor
            · exact List.length_set ..
            · intro j
              by_cases hj : v.2.1 + i = j
              · subst hj
                by_cases hjr : v.2.1 + i < (readCell st v.1).length
                · exact Or.inr (List.getElem?_set_eq hjr)
                · exact Or.inl (by rw [List.set_eq_of_length_le (by omega)])
              · exact Or.inl (List.getElem?_set_ne hj)
          · have hnw : (writeCell st v.1
                ((readCell st v.1).set (v.2.1 + i) (Val.bool true))) = st := by
              simp only [writeCell]
              exact List.set_eq_of_length_le (by omega)
            rw [hnw]
            exact ⟨rfl, fun j => Or.inl rfl⟩
        · have hread2 : readCell (writeCell st v.1
              ((readCell st v.1).set (v.2.1 + i) (Val.bool true))) c = readCell st c := by
            simp only [readCell, writeCell]
            rw [List.getElem?_set_ne hcv]
          rw [hread2]
          exact ⟨rfl, fun j => Or.inl rfl⟩
    · rw [if_neg hi] at h
      cases h

/-- Looking a field up in a first-draw window finds the episode's own cell,
wrapped as a view at the draw offset. -/
lemma firstFieldsV_lookup (index bound : Nat) :
    ∀ (l : List (FieldName × Nat)) (k : FieldName),
      (firstFieldsV index bound l).lookup k
        = (l.lookup k).map (fun c => (c, index, bound - index)) := by
  intro l
  induction l with
  | nil => intro k; rfl
  | cons kv rest ih =>
      obtain ⟨k1, c1⟩ := kv
      intro k
      have hmap : firstFieldsV index bound ((k1, c1) :: rest)
          = (k1, (c1, index, bound - index)) :: firstFieldsV index bound rest := rfl
      by_cases hk : k = k1
      · subst hk
        rw [hmap, lookup_cons_self, lookup_cons_self]
        rfl
      · rw [hmap, lookup_cons_ne k k1 _ _ hk, lookup_cons_ne k k1 c1 rest hk, ih]

/-- Frame induction for the view-semantics sampler: over any run the store
only grows; a pre-existing cell that is not some episode's `is_first` field
is bit-for-bit unchanged; and every pre-existing cell keeps its length, each
of its positions either keeping its value or holding `True`. -/
lemma sampleLoopV_frame (episodes : List SEpisode) (length : Nat) :
    ∀ (fuel : Nat) (rand : List Nat) (st : Store) (ret : Option VWindow) (size : Nat)
      (st' : Store) (w' : VWindow),
      sampleLoopV episodes length fuel rand st ret size = some (st', w') →
      st.length ≤ st'.length
      ∧ (∀ c < st.length,
          (∀ ep ∈ episodes, ∀ kv ∈ ep, kv.1 = "is_first" → kv.2 ≠ c) → st'[c]? = st[c]?)
      ∧ (∀ c < st.length, (readCell st' c).length = (readCell st c).length
          ∧ ∀ j : Nat, (readCell st' c)[j]? = (readCell st c)[j]?
              ∨ (readCell st' c)[j]? = some (Val.bool true)) := by
  intro fuel
  induction fuel with
  | zero =>
    intro rand st ret size st' w' hrun
    simp [sampleLoopV] at hrun
  | succ fuel ih =>
    intro rand st ret size st' w' hrun
    simp only [sampleLoopV] at hrun
    by_cases hsz : size < length
    · rw [if_pos hsz] at hrun
      cases rand with
      | nil => simp at hrun
      | cons c rand' =>
        cases hgetc : episodes[c]? with
        | none => simp [hgetc] at hrun
        | some episode =>
          simp only [hgetc] at hrun
          cases htot : firstFieldLenS st episode with
          | none => simp [htot] at hrun
          | some total =>
            simp only [htot] at hrun
            by_cases htot2 : total < 2
            · rw [if_pos htot2] at hrun
              exact ih rand' st ret size st' w' hrun
            · rw [if_neg htot2] at hrun
              have hmem : episode ∈ episodes := List.getElem?_mem hgetc
              cases hfirst : (match ret with | none => true | some w => w.isEmpty) with
              | true =>
                simp only [hfirst] at hrun
                cases rand' with
                | nil => simp at hrun
                | cons r rand'' =>
                  cases hset : setIsFirstV st
                      (firstFieldsV (r % (total - 1))
                        (min (r % (total - 1) + length) total) (stripLogs episode)) 0 with
                  | none => simp [hset] at hrun
                  | some st1 =>
                    simp only [hset] at hrun
                    cases hfl : firstFieldLenV st1
                        (firstFieldsV (r % (total - 1))
                          (min (r % (total - 1) + length) total) (stripLogs episode)) with
                    | none => simp [hfl] at hrun
                    | some size' =>
                      simp only [hfl] at hrun
                      have setspec := setIsFirstV_spec st _ 0 st1 hset
                      have hrec := ih rand'' st1 _ size' st' w' hrun
                      have htarget : ∀ c < st.length,
                          (∀ ep ∈ episodes, ∀ kv ∈ ep, kv.1 = "is_first" → kv.2 ≠ c) →
                          ∀ v, (firstFieldsV (r % (total - 1))
                              (min (r % (total - 1) + length) total)
                              (stripLogs episode)).lookup "is_first" = some v → v.1 ≠ c := by
                        intro cc hcc hno v hv
                        rw [firstFieldsV_lookup] at hv
                        cases hlk2 : (stripLogs episode).lookup "is_first" with
                        | none => rw [hlk2] at hv; cases hv
                        | some c0 =>
                          rw [hlk2] at hv
                          injection hv with hv
                          have hmem2 : ("is_first", c0) ∈ stripLogs episode :=
                            lookup_mem _ _ _ hlk2
                          have hmem3 : ("is_first", c0) ∈ episode :=
                            List.mem_of_mem_filter hmem2
                          have := hno episode hmem ("is_first", c0) hmem3 rfl
                          rw [← hv]
                          exact this
                      refine ⟨?_, ?_, ?_⟩
                      · have h1 := setspec.1
                        have h2 := hrec.1
                        omega
                      · intro cc hcc hno
                        rw [hrec.2.1 cc (by rw [setspec.1]; omega) hno]
                        exact setspec.2.1 cc (htarget cc hcc hno)
                      · intro cc hcc
                        have h1 := setspec.2.2 cc
                        have h2 := hrec.2.2 cc (by rw [setspec.1]; omega)
                        refine ⟨h2.1.trans h1.1, ?_⟩
                        intro j
                        rcases h2.2 j with hj | hj
                        · rcases h1.2 j with hj2 | hj2
                          · exact Or.inl (hj.trans hj2)
                          · exact Or.inr (hj.trans hj2)
                        · exact Or.inr hj
              | false =>
                simp only [hfirst, Bool.false_eq_true, if_false] at hrun
                cases ret with
                | none => simp at hrun
                | some w =>
                  cases hst : stitchFieldsV w st (stripLogs episode)
                      (min (length - size) total) with
                  | none => simp [hst] at hrun
                  | some sw =>
                    simp only [hst] at hrun
                    obtain ⟨stA, w2⟩ := sw
                    cases hset : setIsFirstV stA w2 size with
                    | none => simp [hset] at hrun
                    | some st1 =>
                      simp only [hset] at hrun
                      cases hfl : firstFieldLenV st1 w2 with
                      | none => simp [hfl] at hrun
                      | some size' =>
                        simp only [hfl] at hrun
                        have stspec := stitchFieldsV_spec w (stripLogs episode) st
                          (min (length - size) total) stA w2 hst
                        have setspec := setIsFirstV_spec stA w2 size st1 hset
                        have hrec := ih rand' st1 _ size' st' w' hrun
                        have hfresh : ∀ cc < st.length,
                            ∀ v, w2.lookup "is_first" = some v → v.1 ≠ cc := by
                          intro cc hcc v hv
                          have h1 : st.length ≤ v.1 := stspec.2.2 _ (lookup_mem _ _ _ hv)
                          omega
                        have hpre : ∀ cc < st.length, st1[cc]? = st[cc]? := by
                          intro cc hcc
                          rw [setspec.2.1 cc (hfresh cc hcc), stspec.2.1 cc hcc]
                        refine ⟨?_, ?_, ?_⟩
                        · have h1 : st.length ≤ st1.length := by
                            rw [setspec.1]
                            exact stspec.1
                          exact le_trans h1 hrec.1
                        · intro cc hcc hno
                          rw [hrec.2.1 cc (by rw [setspec.1]; omega) hno]
                          exact hpre cc hcc
                        · intro cc hcc
                          have h2 := hrec.2.2 cc (by rw [setspec.1]; omega)
                          have hcell : readCell st1 cc = readCell st cc := by
                            rw [readCell, readCell, hpre cc hcc]
                          refine ⟨by rw [h2.1, hcell], ?_⟩
                          intro j
                          rcases h2.2 j with hj | hj
                          · exact Or.inl (by rw [hj, hcell])
                          · exact Or.inr hj
    · rw [if_neg hsz] at hrun
      cases ret with
      | none => simp at hrun
      | some w =>
        simp only [Option.some.injEq, Prod.mk.injEq] at hrun
        obtain ⟨hst, _⟩ := hrun
        subst hst
        exact ⟨le_refl _, fun c _ _ => rfl, fun c _ => ⟨rfl, fun j => Or.inl rfl⟩⟩

/-- Store fixture: a 3-step cached numpy episode held in cells 0
(observations) and 1 (`is_first`). -/
def stS : Store :=
  [[Val.rat 0, Val.rat 1, Val.rat 2],
   [Val.bool true, Val.bool false, Val.bool false]]

/-- Reference episode over `stS`. -/
def epRef : SEpisode := [("obs", 0), ("is_first", 1)]

/-- **C9, counterexample.**  One draw from the cached 3-step episode of `stS`
with window length 2 slices at index 1, so the window's fields are views of
cells 0 and 1, and the `ret["is_first"][0] = True` write of src/tools.py:969
goes through the view into the cache: after the yield the episode's stored
`is_first` array reads `[True, True, False]` instead of its original
`[True, False, False]`, and the yielded window aliases the cached cells 0 and
1 — the sampler both mutates and aliases the episode cache, refuting the
claim that it never does either. -/
theorem sample_episodes_view_mutation_cex :
    sampleLoopV [epRef] 2 5 [0, 1] stS none 0
      = some ([[Val.rat 0, Val.rat 1, Val.rat 2],
               [Val.bool true, Val.bool true, Val.bool false]],
              [("obs", (0, 1, 2)), ("is_first", (1, 1, 2))])
    ∧ readCell [[Val.rat 0, Val.rat 1, Val.rat 2],
               [Val.bool true, Val.bool true, Val.bool false]] 1 ≠ readCell stS 1 := by
  decide

/-- **C9, amended.**  What any run of the view-semantics sampler does to the
store: it only allocates (the store grows); a pre-existing cell that is not
the `is_first` field of any episode — every observation, action, reward or
discount array — is bit-for-bit unchanged; and even an `is_first` cell keeps
its length, with every position either keeping its value or being overwritten
with `True` (the first fragment's `ret["is_first"][0] = True` writing through
the slice view at the drawn start index; stitched fragments are copied by
`np.append`, so later writes land in fresh cells). -/
theorem sample_episodes_is_first_mutation (episodes : List SEpisode)
    (length fuel : Nat) (rand : List Nat) (st st' : Store) (w' : VWindow)
    (hrun : sampleLoopV episodes length fuel rand st none 0 = some (st', w')) :
    st.length ≤ st'.length
    ∧ (∀ c < st.length,
        (∀ ep ∈ episodes, ∀ kv ∈ ep, kv.1 = "is_first" → kv.2 ≠ c) → st'[c]? = st[c]?)
    ∧ (∀ c < st.length, (readCell st' c).length = (readCell st c).length
        ∧ ∀ j : Nat, (readCell st' c)[j]? = (readCell st c)[j]?
            ∨ (readCell st' c)[j]? = some (Val.bool true)) :=
  sampleLoopV_frame episodes length fuel rand st none 0 st' w' hrun

/-- Witness for `sample_episodes_is_first_mutation`: in the concrete mutating
run over `stS`, the observation cell 0 is unchanged and the mutated
`is_first` cell 1 keeps its length. -/
theorem sample_episodes_is_first_mutation_witness :
    (([[Val.rat 0, Val.rat 1, Val.rat 2],
       [Val.bool true, Val.bool true, Val.bool false]] : Store)[0]? = stS[0]?)
    ∧ (readCell [[Val.rat 0, Val.rat 1, Val.rat 2],
        [Val.bool true, Val.bool true, Val.bool false]] 1).length
      = (readCell stS 1).length := by
  have h := sample_episodes_is_first_mutation [epRef] 2 5 [0, 1] stS
    [[Val.rat 0, Val.rat 1, Val.rat 2], [Val.bool true, Val.bool true, Val.bool false]]
    [("obs", (0, 1, 2)), ("is_first", (1, 1, 2))] (by decide)
  exact ⟨h.2.1 0 (by decide) (by decide), (h.2.2 1 (by decide)).1⟩

/-! ### The vectorized simulation driver `simulate_multi` (src/tools.py:364-606)

The driver holds one slot per environment.  Environments, the agent and the
logger are opaque collaborators, modeled as oracle functions; file I/O
(`save_episodes`) and logging do not affect the driver state and are elided.
The driver is embedded in train mode (`is_eval=False`, `state=None`,
`curriculum_learning=True`), with the two-phase `pre_step` /
`simulate_steps` / `post_step` environment step collapsed into one oracle
call, since only `post_step`'s results feed the driver state. -/

/-- The driver's `length` variable.  Python initializes it as a per-slot numpy
int vector (src/tools.py:395), but the episode-logging block rebinds the same
variable to a Python scalar (src/tools.py:561), so both shapes must be
representable. -/
inductive LenVal where
  | vec (l : List Int)
  | scalar (n : Int)
deriving DecidableEq, Repr

/-- `length += 1` (src/tools.py:454): numpy broadcasts over either shape. -/
def lenIncr : LenVal → LenVal
  | .vec l => .vec (l.map (fun x => x + 1))
  | .scalar n => .scalar (n + 1)

/-- `length *= 1 - done` (src/tools.py:456): multiplying by the done vector
broadcasts a scalar `length` back to a vector. -/
def lenMask (lv : LenVal) (done : List Bool) : LenVal :=
  match lv with
  | .vec l => .vec (List.zipWith (fun x d => x * (1 - (if d then (1 : Int) else 0))) l done)
  | .scalar n => .vec (done.map (fun d => n * (1 - (if d then (1 : Int) else 0))))

/-- One environment slot as the driver sees it: the episode identifier used as
cache key, the six curriculum values exposed by `get_curriculum_values`, the
curriculum limits, and the `curriculum_coords_check` feasibility oracle. -/
structure Env where
  id : Nat
  size_of_map : ℚ
  random_starting_orientation : Bool
  num_obstacles : ℚ
  min_dist_between_objs : ℚ
  episode_length : ℚ
  reward_first_time : Bool
  map_limit : ℚ
  num_obstacles_limit : ℚ
  distance_between_objects_limit : ℚ
  max_length : ℚ
  coords_check : ℚ → ℚ → ℚ → Bool

/-- The opaque collaborators of `simulate_multi`: `resetEnv` returns the slot
after `reset()` (its internal episode identifier may change) with the initial
observation; `stepEnv` is the collapsed `pre_step`/`simulate_steps`/`post_step`
returning `(obs, reward, done, info-discount)`; `agent` maps the stacked
observations, done flags and recurrent state to per-slot actions and a new
state (the recurrent state is opaque, modeled as a counter). -/
structure Oracles where
  resetEnv : Env → Env × Transition
  stepEnv : Env → Val → Transition × ℚ × Bool × Option ℚ
  agent : List Transition → List Bool → Nat → List Val × Nat

/-- Python dict assignment `t[k] = v`: overwrite the value in place if the key
exists, otherwise append the new key at the end. -/
def setKey (t : Transition) (k : FieldName) (v : Val) : Transition :=
  if (t.lookup k).isSome then t.map (fun kv => if kv.1 = k then (kv.1, v) else kv)
  else t ++ [(k, v)]

/-- The reset block (src/tools.py:405-419): every done slot is reset; the
fresh observation is dtype-converted, given `reward = 0.0` and
`discount = 1.0`, and seeded into the cache under the slot's episode id; the
slot's raw observation is replaced.  Python first collects all reset results
and then loops; the resets are independent per slot, so the sequentially
interleaved embedding is equivalent. -/
def resetPhase (O : Oracles) : List Bool → List Env → List Transition → Cache →
    List Env × List Transition × Cache
  | d :: ds, e :: es, o :: os, cache =>
      if d then
        let r := O.resetEnv e
        let t := setKey (setKey (r.2.map (fun kv => (kv.1, convert kv.2)))
          "reward" (Val.rat 0)) "discount" (Val.rat 1)
        let rest := resetPhase O ds es os (add_to_cache cache r.1.id t)
        (r.1 :: rest.1, r.2 :: rest.2.1, rest.2.2)
      else
        let rest := resetPhase O ds es os cache
        (e :: rest.1, o :: rest.2.1, rest.2.2)
  | _, es, os, cache => (es, os, cache)

/-- The environment-step block (src/tools.py:433-443): one oracle step per
slot, zipped with the actions. -/
def stepPhase (O : Oracles) : List Env → List Val → List (Transition × ℚ × Bool × Option ℚ)
  | e :: es, a :: acts => O.stepEnv e a :: stepPhase O es acts
  | _, _ => []

/-- One cache transition of the add-to-cache block (src/tools.py:542-550):
converted observation, then `action`, `reward` and
`discount = info.get("discount", 1 - float(done))`. -/
def mkTransition (o : Transition) (a : Val) (r : ℚ) (d : Bool) (info : Option ℚ) : Transition :=
  setKey (setKey (setKey (o.map (fun kv => (kv.1, convert kv.2))) "action" a)
    "reward" (Val.rat r)) "discount" (Val.rat (info.getD (1 - (if d then (1 : ℚ) else 0))))

/-- The add-to-cache block (src/tools.py:540-551), folded over
`zip(action, results, envs)`. -/
def cachePhase : List Val → List (Transition × ℚ × Bool × Option ℚ) → List Env → Cache → Cache
  | a :: acts, res :: ress, env :: es, cache =>
      cachePhase acts ress es
        (add_to_cache cache env.id (mkTransition res.1 a res.2.1 res.2.2.1 res.2.2.2))
  | _, _, _, cache => cache

/-- The episode-completion block (src/tools.py:553-581), train mode, threaded
over the done slots in index order.  For each done slot: the episode is looked
up for saving (`KeyError` if the id is absent, or if `reward` or `image` is
missing — `none`); the shared `length` variable is rebound to the scalar
`len(cache[id]["reward"]) - 1` (src/tools.py:561), discarding the per-slot
vector; diagnostic `log_` fields are logged and popped from the episode; and
`erase_over_episodes(cache, limit)` deletes over-budget episodes (the cache
keeps its insertion order, restricted to the retained ids). -/
def donePhase (limit : Nat) : List (Bool × Env) → Cache → LenVal → Option (Cache × LenVal)
  | [], cache, len => some (cache, len)
  | (d, env) :: rest, cache, len =>
      if d then
        match cache.lookup env.id with
        | none => none
        | some ep =>
            if (ep.lookup "reward").isNone || (ep.lookup "image").isNone then none
            else
              let len2 := LenVal.scalar ((rewardLen ep : Int) - 1)
              let ep2 := ep.filter (fun kv => !containsLog kv.1)
              let cache1 := cache.map (fun e => if e.1 = env.id then (e.1, ep2) else e)
              let kept := (erase_over_episodes cache1 limit).1
              donePhase limit rest (cache1.filter (fun e => kept.any (fun x => x.1 == e.1))) len2
      else donePhase limit rest cache len

/-- `size_of_map`, `random_starting_orientation`, `num_obstacles`,
`min_dist_between_objs`, `episode_length`, `reward_first_time`: one slot's
curriculum advance (src/tools.py:466-535), with the fixed increments of
src/tools.py:383-386.  `reg` models the Python local `new_episode_length`:
the `episode_length` branch (src/tools.py:492-494) has no `else`, so the
local leaks across loop iterations — at the cap the slot reuses whatever the
previous slot computed, and if no slot has set it yet,
`set_curriculum_values` raises `NameError` (the `none` second component). -/
def curriculumUpdateEnv (episode_counter : Nat) (reg : Option ℚ) (env : Env) :
    Option ℚ × Option Env :=
  let new_map_size :=
    if env.size_of_map < env.map_limit then min (env.size_of_map + 2) env.map_limit
    else env.size_of_map
  let new_num_obstacles :=
    if env.num_obstacles < env.num_obstacles_limit then
      min (env.num_obstacles + 1) env.num_obstacles_limit
    else env.num_obstacles
  let new_min_dist :=
    if env.min_dist_between_objs < env.distance_between_objects_limit then
      min (env.min_dist_between_objs + 1/2) env.distance_between_objects_limit
    else env.min_dist_between_objs
  let reg2 :=
    if env.episode_length < env.max_length then
      some (min (env.episode_length + 75) env.max_length)
    else reg
  let reward_first_time2 :=
    if 20 < episode_counter then false else env.reward_first_time
  let new_map_size2 :=
    if env.coords_check (new_num_obstacles + 3) new_min_dist new_map_size then
      min (new_map_size + 3) env.map_limit
    else new_map_size
  let orient2 :=
    if 20 ≤ new_map_size2 then true else env.random_starting_orientation
  match reg2 with
  | none => (none, none)
  | some el =>
      (some el, some { env with
        size_of_map := new_map_size2,
        random_starting_orientation := orient2,
        num_obstacles := new_num_obstacles,
        min_dist_between_objs := new_min_dist,
        episode_length := el,
        reward_first_time := reward_first_time2 })

/-- The fold step of the curriculum loop over slots, threading the leaking
`new_episode_length` register and collecting the updated slots. -/
def curriculumStep (episode_counter : Nat) (acc : Option (Option ℚ × List Env)) (env : Env) :
    Option (Option ℚ × List Env) :=
  match acc with
  | none => none
  | some (reg, out) =>
      match curriculumUpdateEnv episode_counter reg env with
      | (reg2, some env2) => some (reg2, out ++ [env2])
      | (_, none) => none

/-- The curriculum block of one driver tick (src/tools.py:444-446, 452-453 and
458-538): add the tick's summed reward to the accumulator, compute the rolling
average against the episode counter BEFORE this tick's completed episodes are
added (src/tools.py:446 precedes 453), then add them; when the updated counter
has reached `min_episodes_threshold = 5` and the average exceeds
`reward_threshold = 6`, advance every slot and reset accumulator and counter
to zero.  `none` is the `NameError` of an unbound `new_episode_length`. -/
def curriculumPhase (total_reward : ℚ) (episode_counter : Nat) (tickReward : ℚ)
    (doneCount : Nat) (envs : List Env) : Option (ℚ × Nat × List Env) :=
  let total_reward2 := total_reward + tickReward
  let average_reward :=
    if episode_counter ≠ 0 then total_reward2 / (episode_counter : ℚ) else 0
  let counter2 := episode_counter + doneCount
  if 5 ≤ counter2 ∧ 6 < average_reward then
    match envs.foldl (curriculumStep counter2) (some (none, [])) with
    | none => none
    | some (_, envs2) => some (0, 0, envs2)
  else some (total_reward2, counter2, envs)

/-- The driver's mutable state across ticks: the components of the returned
state tuple (src/tools.py:606) plus the episode cache, the curriculum reward
accumulator and episode counter, and the (curriculum-mutable) slots. -/
structure DriverState where
  step : Nat
  episode : Nat
  done : List Bool
  length : LenVal
  obs : List Transition
  agent_state : Nat
  reward : List ℚ
  cache : Cache
  total_reward : ℚ
  episode_counter : Nat
  envs : List Env

/-- Number of `True` flags, `int(done.sum())`. -/
def countTrue (l : List Bool) : Nat := (l.filter (fun b => b)).length

/-- One iteration of the `while` loop of `simulate_multi`
(src/tools.py:402-600): reset done slots, query the agent (`none` if the
action count misses the `assert len(action) == len(envs)` of
src/tools.py:431), step every slot, update the step/episode counters and the
per-slot `length` vector, run the curriculum block, append every slot's
transition to the cache, then run the episode-completion block. -/
def simulateTick (O : Oracles) (limit : Nat) (st : DriverState) : Option DriverState :=
  let rp := resetPhase O st.done st.envs st.obs st.cache
  let envs1 := rp.1
  let ag := O.agent rp.2.1 st.done st.agent_state
  if ag.1.length = envs1.length then
    let results := stepPhase O envs1 ag.1
    let done2 := results.map (fun x => x.2.2.1)
    let reward2 := results.map (fun x => x.2.1)
    match curriculumPhase st.total_reward st.episode_counter reward2.sum
        (countTrue done2) envs1 with
    | none => none
    | some (tr3, ec3, envs3) =>
        match donePhase limit (done2.zip envs3) (cachePhase ag.1 results envs3 rp.2.2)
            (lenMask (lenIncr st.length) done2) with
        | none => none
        | some (cache3, length2) =>
            some { step := st.step + envs1.length, episode := st.episode + countTrue done2,
                   done := done2, length := length2, obs := results.map (fun x => x.1),
                   agent_state := ag.2, reward := reward2, cache := cache3,
                   total_reward := tr3, episode_counter := ec3, envs := envs3 }
  else none

/-- The fueled `while` loop of `simulate_multi` (src/tools.py:402): iterate
while `(steps and step < steps) or (episodes and episode < episodes)`;
`none` is an in-loop exception or fuel exhaustion. -/
def simulate_multi (O : Oracles) (limit steps episodes : Nat) :
    Nat → DriverState → Option DriverState
  | 0, _ => none
  | fuel + 1, st =>
      if (steps ≠ 0 ∧ st.step < steps) ∨ (episodes ≠ 0 ∧ st.episode < episodes) then
        match simulateTick O limit st with
        | none => none
        | some st2 => simulate_multi O limit steps episodes fuel st2
      else some st

/-- The `state=None` initialization (src/tools.py:392-398): zero counters, all
slots done, zero per-slot lengths, empty observations and rewards, fresh
curriculum accumulators, empty cache. -/
def initDriverState (envs : List Env) : DriverState :=
  { step := 0, episode := 0, done := List.replicate envs.length true,
    length := LenVal.vec (List.replicate envs.length 0),
    obs := List.replicate envs.length [], agent_state := 0,
    reward := List.replicate envs.length 0, cache := [],
    total_reward := 0, episode_counter := 0, envs := envs }

/-- Reference closed form of one slot's curriculum advance below the
episode-length cap (the `some` branch of `curriculumUpdateEnv`), used to state
and prove the fold characterization. -/
def curriculumUpd (episode_counter : Nat) (env : Env) : Env :=
  let new_map_size :=
    if env.size_of_map < env.map_limit then min (env.size_of_map + 2) env.map_limit
    else env.size_of_map
  let new_num_obstacles :=
    if env.num_obstacles < env.num_obstacles_limit then
      min (env.num_obstacles + 1) env.num_obstacles_limit
    else env.num_obstacles
  let new_min_dist :=
    if env.min_dist_between_objs < env.distance_between_objects_limit then
      min (env.min_dist_between_objs + 1/2) env.distance_between_objects_limit
    else env.min_dist_between_objs
  let reward_first_time2 :=
    if 20 < episode_counter then false else env.reward_first_time
  let new_map_size2 :=
    if env.coords_check (new_num_obstacles + 3) new_min_dist new_map_size then
      min (new_map_size + 3) env.map_limit
    else new_map_size
  let orient2 :=
    if 20 ≤ new_map_size2 then true else env.random_starting_orientation
  { env with
    size_of_map := new_map_size2,
    random_starting_orientation := orient2,
    num_obstacles := new_num_obstacles,
    min_dist_between_objs := new_min_dist,
    episode_length := min (env.episode_length + 75) env.max_length,
    reward_first_time := reward_first_time2 }

/-- Below the episode-length cap, the slot advance never consults the leaked
register and always succeeds, refreshing the register. -/
lemma curriculumUpdateEnv_below (episode_counter : Nat) (reg : Option ℚ) (env : Env)
    (h : env.episode_length < env.max_length) :
    curriculumUpdateEnv episode_counter reg env
      = (some (min (env.episode_length + 75) env.max_length),
         some (curriculumUpd episode_counter env)) := by
  simp only [curriculumUpdateEnv, curriculumUpd, if_pos h]

/-- When every slot is below its episode-length cap, the curriculum loop over
the slots succeeds and maps `curriculumUpd` over them. -/
lemma curriculumFold_below (episode_counter : Nat) (envs : List Env) :
    ∀ (reg : Option ℚ) (out : List Env),
      (∀ e ∈ envs, e.episode_length < e.max_length) →
      ∃ regF, envs.foldl (curriculumStep episode_counter) (some (reg, out))
        = some (regF, out ++ envs.map (curriculumUpd episode_counter)) := by
  induction envs with
  | nil => intro reg out _; exact ⟨reg, by simp⟩
  | cons env rest ih =>
      intro reg out h
      have h1 : env.episode_length < env.max_length := h env (by simp)
      obtain ⟨regF, hF⟩ := ih (some (min (env.episode_length + 75) env.max_length))
        (out ++ [curriculumUpd episode_counter env]) (fun e he => h e (by simp [he]))
      refine ⟨regF, ?_⟩
      rw [List.foldl_cons]
      have hstep : curriculumStep episode_counter (some (reg, out)) env
          = some (some (min (env.episode_length + 75) env.max_length),
              out ++ [curriculumUpd episode_counter env]) := by
        simp only [curriculumStep, curriculumUpdateEnv_below episode_counter reg env h1]
      rw [hstep, hF]
      simp

/-- Environment-slot fixture: a feasible map (the `coords_check` oracle always
passes), all curriculum values strictly below their limits. -/
def envA : Env :=
  { id := 0, size_of_map := 5, random_starting_orientation := false,
    num_obstacles := 1, min_dist_between_objs := 1, episode_length := 10,
    reward_first_time := true, map_limit := 100, num_obstacles_limit := 10,
    distance_between_objects_limit := 10, max_length := 100,
    coords_check := fun _ _ _ => true }

/-- Second slot fixture, distinguished only by its id. -/
def envB : Env := { envA with id := 1 }

/-- Slot fixture already at its episode-length cap. -/
def envCap : Env := { envA with episode_length := 100 }

/-- Oracle fixture for a two-slot run: each reset rebinds the slot to a fresh
episode id; a step emits an `image` observation with reward 0 and reports done
exactly on even-id slots; the agent returns one null action per slot. -/
def demoOracles : Oracles :=
  { resetEnv := fun e => ({ e with id := e.id + 2 }, [("image", Val.rat 0)]),
    stepEnv := fun e _ => ([("image", Val.rat 0)], 0, decide (e.id % 2 = 0), none),
    agent := fun obs _ s => (List.replicate obs.length (Val.rat 0), s + 1) }

/-- **C7, code bug.**  A two-slot run of `simulate_multi` (budget `steps = 2`,
one tick) in which slot 0 finishes its episode and slot 1 does not.  The
driver itself computes the per-slot length vector `[0, 1]` at
src/tools.py:454-456 (middle conjunct), but the episode-logging block rebinds
`length` to the Python scalar `len(cache[id]["reward"]) - 1 = 1`
(src/tools.py:561), so the state tuple returned at src/tools.py:606 carries
the scalar `1` instead of the per-slot vector `[0, 1]`: slot 1's in-flight
episode length is lost and the returned state is not resumable as specified. -/
theorem simulate_multi_length_clobber :
    (simulate_multi demoOracles 0 2 0 2 (initDriverState [envA, envB])).map DriverState.length
        = some (LenVal.scalar 1)
    ∧ lenMask (lenIncr (LenVal.vec [0, 0])) [true, false] = LenVal.vec [0, 1]
    ∧ LenVal.scalar 1 ≠ LenVal.vec [0, 1] :=
  ⟨rfl, by decide, by decide⟩

/-- **C8, counterexample.**  Firing the curriculum on a slot with map size 5,
map limit 100 and a passing `coords_check` yields map size 10, not the fixed
increment `5 + 2`: the feasibility retry of src/tools.py:518-520 adds 3 more.
Moreover a slot already at its episode-length cap makes the update raise
`NameError` (src/tools.py:492-494 has no `else`, so `new_episode_length` is
unbound): the fired phase returns `none`. -/
theorem curriculum_map_size_cex :
    ((curriculumPhase 35 5 0 0 [envA]).map
        (fun r => (r.1, r.2.1, r.2.2.map Env.size_of_map)) = some (0, 0, [(10 : ℚ)]))
    ∧ ((10 : ℚ) ≠ 5 + 2)
    ∧ curriculumPhase 35 5 0 0 [envCap] = none := by
  have hcapA : envA.episode_length < envA.max_length := by
    show (10 : ℚ) < 100
    norm_num
  have hfire : 5 ≤ 5 + 0 ∧
      6 < (if (5 : Nat) ≠ 0 then ((35 : ℚ) + 0) / ((5 : Nat) : ℚ) else 0) := by
    refine ⟨by norm_num, ?_⟩
    rw [if_pos (by norm_num : (5 : Nat) ≠ 0)]
    norm_num
  refine ⟨?_, by norm_num, ?_⟩
  · obtain ⟨regF, hF⟩ := curriculumFold_below (5 + 0) [envA] none []
      (fun e he => by rw [List.mem_singleton] at he; subst he; exact hcapA)
    simp only [curriculumPhase]
    rw [if_pos hfire, hF]
    norm_num [curriculumUpd, envA, min_def]
  · have hnone : curriculumUpdateEnv (5 + 0) none envCap = (none, none) := by
      simp only [curriculumUpdateEnv, envCap, envA]
      norm_num
    have hstep : curriculumStep (5 + 0) (some (none, [])) envCap = none := by
      simp [curriculumStep, hnone]
    simp only [curriculumPhase]
    rw [if_pos hfire]
    simp [hstep]

/-- **C8, amended.**  The curriculum block of `simulate_multi`, for slots
strictly below their episode-length cap: the update fires exactly when the
post-increment episode counter has reached 5 and the rolling average (the
accumulated reward divided by the PRE-increment counter, zero when that
counter is zero) exceeds 6.  When it does not fire, the accumulators advance
and the slots are untouched; when it fires, both accumulators reset to zero
and every slot is updated in place: `num_obstacles` and
`min_dist_between_objs` by their fixed increments (+1, +0.5) clamped to their
limits, `episode_length` by +75 clamped, but `size_of_map` gains its fixed
increment +2 (clamped) and then 3 more (clamped again) whenever the slot's
`coords_check` accepts the new configuration; `random_starting_orientation`
switches on at map size 20, and `reward_first_time` switches off once the
counter exceeds 20. -/
theorem simulate_multi_curriculum (total_reward : ℚ) (episode_counter : Nat)
    (tickReward : ℚ) (doneCount : Nat) (envs : List Env)
    (hcap : ∀ e ∈ envs, e.episode_length < e.max_length) :
    (¬ (5 ≤ episode_counter + doneCount ∧
        6 < (if episode_counter ≠ 0 then (total_reward + tickReward) / (episode_counter : ℚ)
             else 0)) →
      curriculumPhase total_reward episode_counter tickReward doneCount envs
        = some (total_reward + tickReward, episode_counter + doneCount, envs))
    ∧ ((5 ≤ episode_counter + doneCount ∧
        6 < (if episode_counter ≠ 0 then (total_reward + tickReward) / (episode_counter : ℚ)
             else 0)) →
      ∃ envs2, curriculumPhase total_reward episode_counter tickReward doneCount envs
          = some (0, 0, envs2)
        ∧ envs2.length = envs.length
        ∧ ∀ (i : Nat) (e e2 : Env), envs[i]? = some e → envs2[i]? = some e2 →
            e2.num_obstacles = (if e.num_obstacles < e.num_obstacles_limit then
                min (e.num_obstacles + 1) e.num_obstacles_limit else e.num_obstacles)
            ∧ e2.min_dist_between_objs
                = (if e.min_dist_between_objs < e.distance_between_objects_limit then
                    min (e.min_dist_between_objs + 1/2) e.distance_between_objects_limit
                  else e.min_dist_between_objs)
            ∧ e2.episode_length = min (e.episode_length + 75) e.max_length
            ∧ e2.size_of_map
                = (if e.coords_check
                      ((if e.num_obstacles < e.num_obstacles_limit then
                          min (e.num_obstacles + 1) e.num_obstacles_limit
                        else e.num_obstacles) + 3)
                      (if e.min_dist_between_objs < e.distance_between_objects_limit then
                          min (e.min_dist_between_objs + 1/2) e.distance_between_objects_limit
                        else e.min_dist_between_objs)
                      (if e.size_of_map < e.map_limit then min (e.size_of_map + 2) e.map_limit
                        else e.size_of_map)
                   then min ((if e.size_of_map < e.map_limit then
                          min (e.size_of_map + 2) e.map_limit else e.size_of_map) + 3) e.map_limit
                   else (if e.size_of_map < e.map_limit then min (e.size_of_map + 2) e.map_limit
                        else e.size_of_map))
            ∧ e2.random_starting_orientation
                = (if 20 ≤ e2.size_of_map then true else e.random_starting_orientation)
            ∧ e2.reward_first_time
                = (if 20 < episode_counter + doneCount then false else e.reward_first_time)) := by
  constructor
  · intro hno
    simp only [curriculumPhase]
    rw [if_neg hno]
  · intro hyes
    obtain ⟨regF, hF⟩ := curriculumFold_below (episode_counter + doneCount) envs none [] hcap
    refine ⟨envs.map (curriculumUpd (episode_counter + doneCount)), ?_, by simp, ?_⟩
    · simp only [curriculumPhase]
      rw [if_pos hyes, hF]
      simp
    · intro i e e2 he he2
      rw [List.getElem?_map, he] at he2
      simp only [Option.map_some'] at he2
      injection he2 with he2
      subst he2
      simp [curriculumUpd]

/-- Witness for C8: at zero counters and rewards the curriculum does not fire,
and the accumulators advance with the slot untouched. -/
theorem simulate_multi_curriculum_witness :
    curriculumPhase 0 0 0 0 [envA] = some (0 + 0, 0 + 0, [envA]) :=
  (simulate_multi_curriculum 0 0 0 0 [envA]
      (fun e he => by
        rw [List.mem_singleton] at he
        subst he
        show (10 : ℚ) < 100
        norm_num)).1
    (fun hP => absurd hP.1 (by norm_num))
